import Mathlib
/-!
Verification development for `cyd` (convert your data), a CLI utility that
reads a document on stdin in one of {JSON, TOML, YAML}, parses it into a
generic value, and re-serializes it to stdout in a chosen format.

The orchestration (`main`, `InputData`, `to_json`/`to_toml`/`to_yaml`,
`VALID_FORMATS`) is embedded from `src/main.rs`.  The format libraries
(serde_json, toml, serde_yaml) and the clap argument layer are external
crates whose code is not part of the repository; they are modelled from the
specification (each such definition carries a doc comment saying so).
-/

abbrev Chars := List Char


/-- `true` iff `c` is an ASCII decimal digit. -/
def isDigitC (c : Char) : Bool := decide (48 ≤ c.toNat ∧ c.toNat ≤ 57)


/-- The ASCII digit character for a value `0 ≤ d ≤ 9`. -/
def digitChar : Nat → Char
  | 0 => '0' | 1 => '1' | 2 => '2' | 3 => '3' | 4 => '4'
  | 5 => '5' | 6 => '6' | 7 => '7' | 8 => '8' | _ => '9'


/-- Numeric value of a digit character. -/
def digitVal (c : Char) : Nat := c.toNat - 48


/-- Value of a string of decimal digits, most significant first. -/
def digitsToNat (ds : Chars) : Nat := ds.foldl (fun a c => a * 10 + digitVal c) 0


/-- Decimal digits of `n`, most significant first; `fuel` bounds recursion. -/
def natDigitsAux : Nat → Nat → Chars
  | 0, _ => []
  | fuel+1, n =>
    if n < 10 then [digitChar n]
    else natDigitsAux fuel (n / 10) ++ [digitChar (n % 10)]


/-- Decimal digits of `n`, most significant first (no leading zeros). -/
def natDigits (n : Nat) : Chars := natDigitsAux (n+1) n


/-- Left-pad a digit string with `'0'` up to length `k`. -/
def padTo (k : Nat) (ds : Chars) : Chars := List.replicate (k - ds.length) '0' ++ ds


/-- Decimal rendering of the integer `n`. -/
def intChars (n : Int) : Chars :=
  if n < 0 then '-' :: natDigits n.natAbs else natDigits n.natAbs


/-- Digits of the decimal number `a / 10^e` with exactly `e` fractional digits. -/
def floatDigits (a e : Nat) : Chars :=
  (padTo (e+1) (natDigits a)).take ((padTo (e+1) (natDigits a)).length - e)
    ++ '.' :: (padTo (e+1) (natDigits a)).drop ((padTo (e+1) (natDigits a)).length - e)


/-- Decimal rendering of the float `m / 10^e` (`e ≥ 1` fractional digits). -/
def floatChars (m : Int) (e : Nat) : Chars :=
  if m < 0 then '-' :: floatDigits m.natAbs e else floatDigits m.natAbs e


/-- Escape one character for a quoted string literal. -/
def escChar (c : Char) : Chars :=
  if c = '"' then ['\\', '"']
  else if c = '\\' then ['\\', '\\']
  else if c = '\n' then ['\\', 'n']
  else [c]


/-- Escape a whole string (body of a quoted literal, without the quotes). -/
def escString : Chars → Chars
  | [] => []
  | c :: cs => escChar c ++ escString cs


/-- The characters of the `null` literal. -/
def nullLit : Chars := ['n', 'u', 'l', 'l']

/-- The characters of the `true` literal. -/
def trueLit : Chars := ['t', 'r', 'u', 'e']

/-- The characters of the `false` literal. -/
def falseLit : Chars := ['f', 'a', 'l', 's', 'e']

/-- Reverse of `escChar` on the character following a backslash. -/
def unescChar (d : Char) : Option Char :=
  if d = '"' then some '"'
  else if d = '\\' then some '\\'
  else if d = 'n' then some '\n'
  else none


/-- The Generic Value: the tagged union shared by all three formats
(spec §3).  serde_json::Value / toml::Value / serde_yaml::Value are all
modelled by this one carrier, since serialization only depends on the
value's shape.  Floats are modelled as exact decimals `m / 10^e`
(reflecting the libraries' round-tripping numeric formatting); maps are
association lists in insertion order. -/
inductive GValue where
  | null
  | bool (b : Bool)
  | int (n : Int)
  | float (m : Int) (e : Nat)
  | str (s : Chars)
  | seq (xs : List GValue)
  | map (kvs : List (Chars × GValue))


mutual

/-- Modelled from the spec: the compact single-line ("flow") rendering of a
Generic Value shared by the modelled format libraries (serde_json's compact
output, and the nested-value syntax of the modelled TOML/YAML emitters).
The libraries are external crates, absent from `src/`; the concrete
character grammar is fixed here, faithful to spec §4.3 (JSON: compact
output, no trailing newline). -/
def flowV : GValue → Chars
  | .null => nullLit
  | .bool true => trueLit
  | .bool false => falseLit
  | .int n => intChars n
  | .float m e => floatChars m e
  | .str s => '"' :: escString s ++ ['"']
  | .seq xs => '[' :: flowItems xs
  | .map kvs => '{' :: flowMembers kvs

/-- Flow rendering of sequence elements, including the closing bracket. -/
def flowItems : List GValue → Chars
  | [] => [']']
  | [x] => flowV x ++ [']']
  | x :: y :: xs => flowV x ++ ',' :: flowItems (y :: xs)

/-- Flow rendering of map entries, including the closing brace. -/
def flowMembers : List (Chars × GValue) → Chars
  | [] => ['}']
  | [(k,v)] => '"' :: escString k ++ '"' :: ':' :: flowV v ++ ['}']
  | (k,v) :: kv :: kvs =>
    '"' :: escString k ++ '"' :: ':' :: flowV v ++ ',' :: flowMembers (kv :: kvs)

end

mutual

/-- Recursion fuel sufficient to parse the flow rendering of a value. -/
def gfuel : GValue → Nat
  | .null => 1
  | .bool _ => 1
  | .int _ => 1
  | .float _ _ => 1
  | .str _ => 1
  | .seq xs => 1 + gfuelItems xs
  | .map kvs => 1 + gfuelMembers kvs

/-- Fuel for a rendered element list. -/
def gfuelItems : List GValue → Nat
  | [] => 1
  | [x] => 1 + gfuel x
  | x :: y :: xs => 1 + gfuel x + gfuelItems (y :: xs)

/-- Fuel for a rendered member list. -/
def gfuelMembers : List (Chars × GValue) → Nat
  | [] => 1
  | [(_,v)] => 1 + gfuel v
  | (_,v) :: kv :: kvs => 1 + gfuel v + gfuelMembers (kv :: kvs)

end

mutual

/-- The common subset of the three formats from the round-trip property
(spec §8): booleans, numbers without NaN/Infinity (integers, and floats in
canonical form with at least one fractional digit), strings, sequences and
string-keyed maps; no nulls. -/
def commonOK : GValue → Bool
  | .null => false
  | .bool _ => true
  | .int _ => true
  | .float _ e => decide (1 ≤ e)
  | .str _ => true
  | .seq xs => commonOKItems xs
  | .map kvs => commonOKMembers kvs

/-- `commonOK` on every element of a sequence. -/
def commonOKItems : List GValue → Bool
  | [] => true
  | x :: xs => commonOK x && commonOKItems xs

/-- `commonOK` on every value of a map. -/
def commonOKMembers : List (Chars × GValue) → Bool
  | [] => true
  | (_, v) :: kvs => commonOK v && commonOKMembers kvs

end

mutual

/-- `true` iff the value contains no `null` anywhere. -/
def noNull : GValue → Bool
  | .null => false
  | .bool _ => true
  | .int _ => true
  | .float _ _ => true
  | .str _ => true
  | .seq xs => noNullItems xs
  | .map kvs => noNullMembers kvs

/-- `noNull` on every element of a sequence. -/
def noNullItems : List GValue → Bool
  | [] => true
  | x :: xs => noNull x && noNullItems xs

/-- `noNull` on every value of a map. -/
def noNullMembers : List (Chars × GValue) → Bool
  | [] => true
  | (_, v) :: kvs => noNull v && noNullMembers kvs

end

/-- Match a literal character sequence at the head of the input. -/
def expectLit : Chars → Chars → Option Chars
  | [], cs => some cs
  | l :: ls, c :: cs => if c = l then expectLit ls cs else none
  | _ :: _, [] => none


/-- Split off the longest digit run at the head of the input. -/
def spanDigits : Chars → Chars × Chars
  | [] => ([], [])
  | c :: cs =>
    if isDigitC c then
      let p := spanDigits cs
      (c :: p.1, p.2)
    else ([], c :: cs)


/-- Parse the body of a quoted string up to the closing quote. -/
def parseStrBody : Chars → Option (Chars × Chars)
  | [] => none
  | c :: cs =>
    if c = '"' then some ([], cs)
    else if c = '\\' then
      match cs with
      | [] => none
      | d :: cs2 =>
        match unescChar d with
        | some u =>
          match parseStrBody cs2 with
          | some p => some (u :: p.1, p.2)
          | none => none
        | none => none
    else
      match parseStrBody cs with
      | some p => some (c :: p.1, p.2)
      | none => none


/-- Parse an unsigned number (integer or decimal float). -/
def parseNumPos (cs : Chars) : Option (GValue × Chars) :=
  match spanDigits cs with
  | ([], _) => none
  | (d :: ds, rest) =>
    match rest with
    | '.' :: r2 =>
      match spanDigits r2 with
      | ([], _) => none
      | (f :: fs, r3) =>
        some (.float ((digitsToNat (d :: ds) * 10 ^ (f :: fs).length
            + digitsToNat (f :: fs) : Nat) : Int) (f :: fs).length, r3)
    | _ => some (.int ((digitsToNat (d :: ds) : Nat) : Int), rest)


/-- Parse a `-`-prefixed number (the `-` already consumed). -/
def parseNumNeg (cs : Chars) : Option (GValue × Chars) :=
  match parseNumPos cs with
  | some (.int n, r) => some (.int (-n), r)
  | some (.float m e, r) => some (.float (-m) e, r)
  | _ => none


mutual

/-- Modelled from the spec: recursive-descent parser for the flow rendering
of a Generic Value, the inverse direction of `flowV`.  (The concrete wire
grammar belongs to the external format libraries, absent from `src/`.) -/
def parseV : Nat → Chars → Option (GValue × Chars)
  | 0, _ => none
  | _+1, [] => none
  | fuel+1, c :: cs =>
    if c = '"' then
      match parseStrBody cs with
      | some p => some (.str p.1, p.2)
      | none => none
    else if c = '[' then
      match parseItems fuel cs with
      | some p => some (.seq p.1, p.2)
      | none => none
    else if c = '{' then
      match parseMembers fuel cs with
      | some p => some (.map p.1, p.2)
      | none => none
    else if c = '-' then parseNumNeg cs
    else if isDigitC c then parseNumPos (c :: cs)
    else if c = 'n' then
      match expectLit ['u','l','l'] cs with
      | some r => some (.null, r)
      | none => none
    else if c = 't' then
      match expectLit ['r','u','e'] cs with
      | some r => some (.bool true, r)
      | none => none
    else if c = 'f' then
      match expectLit ['a','l','s','e'] cs with
      | some r => some (.bool false, r)
      | none => none
    else none

/-- Parse sequence elements up to and including the closing bracket. -/
def parseItems : Nat → Chars → Option (List GValue × Chars)
  | 0, _ => none
  | _+1, [] => none
  | fuel+1, c :: cs =>
    if c = ']' then some ([], cs)
    else
      match parseV fuel (c :: cs) with
      | some (v, ',' :: r) =>
        match parseItems fuel r with
        | some p => some (v :: p.1, p.2)
        | none => none
      | some (v, ']' :: r) => some ([v], r)
      | _ => none

/-- Parse map members up to and including the closing brace. -/
def parseMembers : Nat → Chars → Option (List (Chars × GValue) × Chars)
  | 0, _ => none
  | _+1, [] => none
  | fuel+1, c :: cs =>
    if c = '}' then some ([], cs)
    else if c = '"' then
      match parseStrBody cs with
      | some (k, ':' :: r2) =>
        match parseV fuel r2 with
        | some (v, ',' :: r3) =>
          match parseMembers fuel r3 with
          | some p => some ((k, v) :: p.1, p.2)
          | none => none
        | some (v, '}' :: r3) => some ([(k, v)], r3)
        | _ => none
      | _ => none
    else none

end

/-- Parse a complete flow document: all input must be consumed. -/
def parseVFull (s : Chars) : Option GValue :=
  match parseV (s.length + 1) s with
  | some (v, []) => some v
  | _ => none


/-- The remainder that may legally follow a rendered number. -/
def delimOk : Chars → Bool
  | [] => true
  | c :: _ => !isDigitC c && !(c == '.')


/-- `true` iff the input does not start with a digit. -/
def headNotDigit : Chars → Bool
  | [] => true
  | c :: _ => !isDigitC c


/-- Split the input at newlines; every line must be newline-terminated. -/
def splitLines : Chars → Option (List Chars)
  | [] => some []
  | c :: cs =>
    if c = '\n' then
      match splitLines cs with
      | some ls => some ([] :: ls)
      | none => none
    else
      match splitLines cs with
      | some [] => none
      | some (l :: ls) => some ((c :: l) :: ls)
      | none => none


/-- A parse failure (`ParseError` in the spec's taxonomy). -/
inductive ParseErr where
  | invalid
deriving DecidableEq


/-- A serialize failure (`SerializeError` in the spec's taxonomy). -/
inductive SerErr where
  | unsupported
deriving DecidableEq


/-- Modelled from the spec: the document text produced by serde_json for a
Generic Value — compact output, no trailing newline (§4.3).  serde_json is
an external crate, absent from `src/`. -/
def json_to_string (v : GValue) : Chars := flowV v


/-- Modelled from the spec: serde_json parsing of a complete document
(`serde_json::from_reader`); empty input is a `ParseError` (§4.2, §8). -/
def jsonParse (s : Chars) : Except ParseErr GValue :=
  match parseVFull s with
  | some v => .ok v
  | none => .error .invalid


/-- One `"key" = value` line of the modelled TOML document. -/
def tomlLineOf (kv : Chars × GValue) : Chars :=
  '"' :: escString kv.1 ++ '"' :: ' ' :: '=' :: ' ' :: flowV kv.2


/-- The newline-terminated lines of the modelled TOML document. -/
def tomlLines : List (Chars × GValue) → Chars
  | [] => []
  | kv :: kvs => tomlLineOf kv ++ '\n' :: tomlLines kvs


/-- Modelled from the spec: `toml::to_string` of a Generic Value.  The toml
crate is an external dependency, absent from `src/`.  Per §4.3 a non-map
document root is a `SerializeError`, and per §3 values TOML cannot
represent (null) fail explicitly rather than corrupt data. -/
def toml_to_string (v : GValue) : Except SerErr Chars :=
  match v with
  | .map kvs => if noNull (.map kvs) = true then .ok (tomlLines kvs) else .error .unsupported
  | _ => .error .unsupported


/-- Apply a fallible parser to every element, failing if any line fails. -/
def mapOption {A B : Type} (f : A → Option B) : List A → Option (List B)
  | [] => some []
  | a :: as =>
    match f a with
    | some b =>
      match mapOption f as with
      | some bs => some (b :: bs)
      | none => none
    | none => none


/-- Parse one `"key" = value` line of the modelled TOML grammar. -/
def parseTomlLine (l : Chars) : Option (Chars × GValue) :=
  match l with
  | '"' :: cs =>
    match parseStrBody cs with
    | some (k, ' ' :: '=' :: ' ' :: r2) =>
      match parseVFull r2 with
      | some v => some (k, v)
      | none => none
    | _ => none
  | _ => none


/-- Modelled from the spec: `toml::from_str`; empty input is a `ParseError`
(§4.2, §8), otherwise the document is a table of key/value lines. -/
def tomlParse (s : Chars) : Except ParseErr GValue :=
  if s = [] then .error .invalid
  else
    match splitLines s with
    | none => .error .invalid
    | some lines =>
      match mapOption parseTomlLine lines with
      | some kvs => .ok (.map kvs)
      | none => .error .invalid


/-- One `- item` line of the modelled YAML block sequence. -/
def yamlSeqLineOf (x : GValue) : Chars := '-' :: ' ' :: flowV x


/-- The newline-terminated lines of a modelled YAML block sequence. -/
def yamlSeqLines : List GValue → Chars
  | [] => []
  | x :: xs => yamlSeqLineOf x ++ '\n' :: yamlSeqLines xs


/-- One `"key": value` line of the modelled YAML block mapping. -/
def yamlMapLineOf (kv : Chars × GValue) : Chars :=
  '"' :: escString kv.1 ++ '"' :: ':' :: ' ' :: flowV kv.2


/-- The newline-terminated lines of a modelled YAML block mapping. -/
def yamlMapLines : List (Chars × GValue) → Chars
  | [] => []
  | kv :: kvs => yamlMapLineOf kv ++ '\n' :: yamlMapLines kvs


/-- Modelled from the spec: the document text produced by serde_yaml —
block-style emission at the top level, trailing newline (§4.3).  serde_yaml
is an external crate, absent from `src/`. -/
def yaml_to_string (v : GValue) : Chars :=
  match v with
  | .seq (x :: xs) => yamlSeqLines (x :: xs)
  | .map (kv :: kvs) => yamlMapLines (kv :: kvs)
  | _ => flowV v ++ ['\n']


/-- `true` iff the line begins a block-sequence item (`- `). -/
def startsDashSpace (l : Chars) : Bool :=
  match l with
  | c :: cs =>
    if c = '-' then
      match cs with
      | c2 :: _ => c2 == ' '
      | [] => false
    else false
  | [] => false


/-- Parse one `- item` line of the modelled YAML grammar. -/
def parseYamlSeqLine (l : Chars) : Option GValue :=
  match l with
  | '-' :: ' ' :: r => parseVFull r
  | _ => none


/-- Parse one `"key": value` line of the modelled YAML grammar. -/
def parseYamlMapLine (l : Chars) : Option (Chars × GValue) :=
  match l with
  | '"' :: cs =>
    match parseStrBody cs with
    | some (k, ':' :: ' ' :: r2) =>
      match parseVFull r2 with
      | some v => some (k, v)
      | none => none
    | _ => none
  | _ => none


/-- Modelled from the spec: serde_yaml parsing of a complete document
(`serde_yaml::from_reader`); empty input is a `ParseError` (§4.2, §8);
a block sequence, a block mapping, or a single flow document. -/
def yamlParse (s : Chars) : Except ParseErr GValue :=
  if s = [] then .error .invalid
  else
    match splitLines s with
    | none => .error .invalid
    | some [] => .error .invalid
    | some (l :: ls) =>
      if (l :: ls).all startsDashSpace then
        match mapOption parseYamlSeqLine (l :: ls) with
        | some xs => .ok (.seq xs)
        | none => .error .invalid
      else
        match ls with
        | [] =>
          match parseVFull l with
          | some v => .ok v
          | none =>
            match parseYamlMapLine l with
            | some kv => .ok (.map [kv])
            | none => .error .invalid
        | _ :: _ =>
          match mapOption parseYamlMapLine (l :: ls) with
          | some kvs => .ok (.map kvs)
          | none => .error .invalid


/-- `VALID_FORMATS` from `src/main.rs`: the allow-list of format names given
to clap as `possible_values`, matched case-insensitively. -/
def VALID_FORMATS : List String := ["json", "toml", "yaml"]


/-- ASCII lowercasing of one character (as `str::to_lowercase` acts on the
ASCII format names). -/
def lowerChar : Char → Char
  | 'A' => 'a' | 'B' => 'b' | 'C' => 'c' | 'D' => 'd' | 'E' => 'e' | 'F' => 'f'
  | 'G' => 'g' | 'H' => 'h' | 'I' => 'i' | 'J' => 'j' | 'K' => 'k' | 'L' => 'l'
  | 'M' => 'm' | 'N' => 'n' | 'O' => 'o' | 'P' => 'p' | 'Q' => 'q' | 'R' => 'r'
  | 'S' => 's' | 'T' => 't' | 'U' => 'u' | 'V' => 'v' | 'W' => 'w' | 'X' => 'x'
  | 'Y' => 'y' | 'Z' => 'z' | c => c


/-- `to_lowercase` of an argument string. -/
def lowerStr (s : String) : String := ⟨s.data.map lowerChar⟩


/-- A format argument is accepted iff its lowercase form is in the
allow-list (clap `possible_values` with `case_insensitive(true)`). -/
def validFormat (s : String) : Bool := VALID_FORMATS.contains (lowerStr s)


/-- The I/O environment of a run: whether reading stdin succeeds and
whether writes to stdout succeed. -/
structure IOEnv where
  stdinOk : Bool
  stdoutOk : Bool


/-- `enum InputData` from `src/main.rs`: the parsed Generic Value tagged by
the format that produced it (serde_json::Value / toml::Value /
serde_yaml::Value, all modelled by the one `GValue` carrier). -/
inductive InputData where
  | JSON (v : GValue)
  | TOML (v : GValue)
  | YAML (v : GValue)


/-- The Generic Value carried by an `InputData`. -/
def InputData.value : InputData → GValue
  | .JSON v => v
  | .TOML v => v
  | .YAML v => v


/-- serde_json writer-side error (IO failure while writing). -/
inductive JsonWErr where
  | io
deriving DecidableEq


/-- serde_yaml writer-side error (IO failure while writing). -/
inductive YamlWErr where
  | io
deriving DecidableEq


/-- Modelled from the spec: `serde_json::to_writer(out, &v)` — writes the
compact JSON document; an IO failure of the writer surfaces in the returned
`Result`.  Returns the result and the bytes actually written. -/
def serde_json_to_writer (stdoutOk : Bool) (v : GValue) : Except JsonWErr Unit × Chars :=
  if stdoutOk then (.ok (), json_to_string v) else (.error .io, [])


/-- Modelled from the spec: `serde_yaml::to_writer(out, &v)`. -/
def serde_yaml_to_writer (stdoutOk : Bool) (v : GValue) : Except YamlWErr Unit × Chars :=
  if stdoutOk then (.ok (), yaml_to_string v) else (.error .io, [])


/-- `InputData::to_json` from `src/main.rs`: dispatch on the tag and
serialize the carried value with serde_json in every arm. -/
def InputData.to_json (d : InputData) (stdoutOk : Bool) : Except JsonWErr Unit × Chars :=
  match d with
  | .JSON v => serde_json_to_writer stdoutOk v
  | .TOML v => serde_json_to_writer stdoutOk v
  | .YAML v => serde_json_to_writer stdoutOk v


/-- The bytes that reach stdout from one attempted write. -/
def writeChars (stdoutOk : Bool) (s : Chars) : Chars := if stdoutOk then s else []


/-- `InputData::to_toml` from `src/main.rs`: serialize with
`toml::to_string` in every arm; on success the string is written with a
`write!` whose `Result` is DISCARDED (statement ends in `;`), so `Ok(())`
is returned whether or not the write succeeded. -/
def InputData.to_toml (d : InputData) (stdoutOk : Bool) : Except SerErr Unit × Chars :=
  match (match d with
    | .JSON v => toml_to_string v
    | .TOML v => toml_to_string v
    | .YAML v => toml_to_string v) with
  | .ok s => (.ok (), writeChars stdoutOk s)
  | .error e => (.error e, [])


/-- `InputData::to_yaml` from `src/main.rs`. -/
def InputData.to_yaml (d : InputData) (stdoutOk : Bool) : Except YamlWErr Unit × Chars :=
  match d with
  | .JSON v => serde_yaml_to_writer stdoutOk v
  | .TOML v => serde_yaml_to_writer stdoutOk v
  | .YAML v => serde_yaml_to_writer stdoutOk v


/-- One diagnostic line on the error stream.  Each constructor stands for
one printed line. -/
inductive Diag where
  | clapError
  | parseErrorLine
  | badInputBranch
  | jsonErrorLine
  | tomlErrorLine
  | yamlErrorLine
  | panicLine
  | panicBacktraceNote
  | badOutputBranch
deriving DecidableEq


/-- Whether a diagnostic line carries a failing-stage prefix as printed by
the source (`error:` for the parse stage and the unreachable arms,
`JSON Error:` / `TOML Error:` / `YAML Error:` for the serialize stage,
clap's own `error:` report).  The two lines printed by the Rust runtime's
panic handler carry no stage prefix. -/
def Diag.stagePrefixed : Diag → Bool
  | .panicLine => false
  | .panicBacktraceNote => false
  | _ => true


/-- Outcome of the input-processing `match` in `main`. -/
inductive ParseOutcome where
  | ok (d : InputData)
  | fail (dg : Diag)
  | panicked


/-- The input-processing `match` of `main` (src/main.rs lines 115-156):
dispatch on the lowercased input type; JSON/YAML read stdin through the
format library (an IO failure surfaces as that library's parse-side error,
printed via `eprintln!("error: ...")` and exit 1); the TOML path first does
`stdin.read_to_string(..).expect("couldn't read stdin")`, which PANICS on
an IO failure. -/
def parseStage (fmt : String) (stdinOk : Bool) (stdin : Chars) : ParseOutcome :=
  match fmt with
  | "json" =>
    if stdinOk then
      match jsonParse stdin with
      | .ok v => .ok (.JSON v)
      | .error _ => .fail .parseErrorLine
    else .fail .parseErrorLine
  | "toml" =>
    if stdinOk then
      match tomlParse stdin with
      | .ok v => .ok (.TOML v)
      | .error _ => .fail .parseErrorLine
    else .panicked
  | "yaml" =>
    if stdinOk then
      match yamlParse stdin with
      | .ok v => .ok (.YAML v)
      | .error _ => .fail .parseErrorLine
    else .fail .parseErrorLine
  | _ => .fail .badInputBranch


/-- The output `match` of `main` (src/main.rs lines 158-194): exit code,
stdout bytes, stderr diagnostics, and the values handed to a serializer. -/
def serializeStage (fmt : String) (d : InputData) (stdoutOk : Bool) :
    Nat × Chars × List Diag × List GValue :=
  match fmt with
  | "json" =>
    match d.to_json stdoutOk with
    | (.ok _, out) => (0, out, [], [d.value])
    | (.error _, out) => (1, out, [.jsonErrorLine], [d.value])
  | "toml" =>
    match d.to_toml stdoutOk with
    | (.ok _, out) => (0, out, [], [d.value])
    | (.error _, out) => (1, out, [.tomlErrorLine], [d.value])
  | "yaml" =>
    match d.to_yaml stdoutOk with
    | (.ok _, out) => (0, out, [], [d.value])
    | (.error _, out) => (1, out, [.yamlErrorLine], [d.value])
  | _ => (1, [], [.badOutputBranch], [])


/-- Observable outcome of one process invocation. -/
structure RunResult where
  exitCode : Nat
  stdout : Chars
  stderr : List Diag
  stdinRead : Bool
  constructed : List GValue
  serialized : List GValue


/-- The whole program (src/main.rs `main`): clap argument validation, then
the parse and serialize stages.  `inputArg`/`outputArg` are the raw
`--input`/`--output` values; `stdin` the content of standard input; `env`
whether stdin reads and stdout writes succeed.  clap rejects arguments
outside the allow-list before any stdin read and exits 1 (modelled from
the spec: the clap crate is an external dependency, absent from `src/`);
a panic from `.expect` terminates the process with exit code 101 after the
runtime prints its two-line panic report. -/
def run (inputArg outputArg : String) (stdin : Chars) (env : IOEnv) : RunResult :=
  if validFormat inputArg && validFormat outputArg then
    match parseStage (lowerStr inputArg) env.stdinOk stdin with
    | .ok d =>
      let r := serializeStage (lowerStr outputArg) d env.stdoutOk
      ⟨r.1, r.2.1, r.2.2.1, true, [d.value], r.2.2.2⟩
    | .fail dg => ⟨1, [], [dg], true, [], []⟩
    | .panicked => ⟨101, [], [.panicLine, .panicBacktraceNote], true, [], []⟩
  else ⟨1, [], [.clapError], false, [], []⟩


/-- The three formats. -/
inductive Format where
  | json
  | toml
  | yaml
deriving DecidableEq


/-- Document serialization per format: the pure text-producing part of the
serialize stage (`serde_json::to_writer`'s document, `toml::to_string`,
`serde_yaml::to_writer`'s document). -/
def serializeDoc : Format → GValue → Except SerErr Chars
  | .json, v => .ok (json_to_string v)
  | .toml, v => toml_to_string v
  | .yaml, v => .ok (yaml_to_string v)


/-- Document parsing per format, as the parse stage of `run` uses it. -/
def parseDoc : Format → Chars → Except ParseErr GValue
  | .json, s => jsonParse s
  | .toml, s => tomlParse s
  | .yaml, s => yamlParse s


/-- Serialize to format `f`, then parse the document back: one
parse-and-reserialize hop of a conversion chain. -/
def convertVia (f : Format) (v : GValue) : Option GValue :=
  match serializeDoc f v with
  | .ok s =>
    match parseDoc f s with
    | .ok w => some w
    | .error _ => none
  | .error _ => none


/-- Chain `convertVia` through a cycle of formats. -/
def formatCycle : List Format → GValue → Option GValue
  | [], v => some v
  | f :: fs, v =>
    match convertVia f v with
    | some w => formatCycle fs w
    | none => none


/-- Expressibility of a value as a document of format `f`: JSON and YAML
accept any root; a TOML document exists only for a nonempty map root (a
non-map root is a SerializeError, and the empty table's document is the
empty string, which the parser contract rejects as empty input). -/
def exprOK : Format → GValue → Bool
  | .json, _ => true
  | .yaml, _ => true
  | .toml, v =>
    match v with
    | .map (_ :: _) => true
    | _ => false


/-- The stdin of the C3 scenario: `- 1\n- 2\n`. -/
def dashOneTwo : Chars := '-' :: ' ' :: '1' :: '\n' :: '-' :: ' ' :: '2' :: '\n' :: []


theorem digitVal_digitChar {d : Nat} (h : d < 10) : digitVal (digitChar d) = d := by
  interval_cases d <;> rfl


theorem isDigitC_digitChar {d : Nat} (h : d < 10) : isDigitC (digitChar d) = true := by
  interval_cases d <;> rfl


theorem isDigitC_ne {c d : Char} (hc : isDigitC c = true) (hd : isDigitC d = false) : c ≠ d := by
  intro e; subst e; rw [hc] at hd; cases hd


theorem digitsToNat_go (ds : Chars) :
    ∀ acc : Nat, List.foldl (fun a c => a * 10 + digitVal c) acc ds
      = acc * 10 ^ ds.length + digitsToNat ds := by
  induction ds with
  | nil => intro acc; simp [digitsToNat]
  | cons c cs ih =>
    intro acc
    have h0 : digitsToNat (c :: cs)
        = List.foldl (fun a c => a * 10 + digitVal c) (0 * 10 + digitVal c) cs := rfl
    rw [List.foldl_cons, ih (acc * 10 + digitVal c), h0, ih (0 * 10 + digitVal c)]
    simp [List.length_cons]
    ring


theorem digitsToNat_append (a b : Chars) :
    digitsToNat (a ++ b) = digitsToNat a * 10 ^ b.length + digitsToNat b := by
  have h0 : digitsToNat (a ++ b)
      = List.foldl (fun a c => a * 10 + digitVal c) (digitsToNat a) b := by
    simp [digitsToNat, List.foldl_append]
  rw [h0, digitsToNat_go]


theorem natDigitsAux_spec :
    ∀ fuel n, n < fuel →
      natDigitsAux fuel n ≠ [] ∧ (natDigitsAux fuel n).all isDigitC = true ∧
        digitsToNat (natDigitsAux fuel n) = n := by
  intro fuel
  induction fuel with
  | zero => intro n h; omega
  | succ f ih =>
    intro n h
    by_cases h10 : n < 10
    · refine ⟨by simp [natDigitsAux, h10], ?_, ?_⟩
      · simp [natDigitsAux, h10, List.all_cons, isDigitC_digitChar h10]
      · simp [natDigitsAux, h10, digitsToNat, digitVal_digitChar h10]
    · have hdiv : n / 10 < f := by
        have := Nat.div_lt_self (show 0 < n by omega) (show 1 < 10 by omega)
        omega
      obtain ⟨h1, h2, h3⟩ := ih (n / 10) hdiv
      have hmod : n % 10 < 10 := Nat.mod_lt n (by omega)
      refine ⟨by simp [natDigitsAux, h10], ?_, ?_⟩
      · simp [natDigitsAux, h10, List.all_append, h2, List.all_cons, isDigitC_digitChar hmod]
      · have hu : natDigitsAux (f+1) n = natDigitsAux f (n / 10) ++ [digitChar (n % 10)] := by
          simp [natDigitsAux, h10]
        rw [hu, digitsToNat_append, h3]
        simp [digitsToNat, digitVal_digitChar hmod]
        omega


theorem natDigits_ne_nil (n : Nat) : natDigits n ≠ [] :=
  (natDigitsAux_spec (n+1) n (Nat.lt_succ_self n)).1


theorem natDigits_all (n : Nat) : (natDigits n).all isDigitC = true :=
  (natDigitsAux_spec (n+1) n (Nat.lt_succ_self n)).2.1


theorem digitsToNat_natDigits (n : Nat) : digitsToNat (natDigits n) = n :=
  (natDigitsAux_spec (n+1) n (Nat.lt_succ_self n)).2.2


theorem spanDigits_append :
    ∀ ds rest, ds.all isDigitC = true → headNotDigit rest = true →
      spanDigits (ds ++ rest) = (ds, rest) := by
  intro ds
  induction ds with
  | nil =>
    intro rest _ hr
    cases rest with
    | nil => rfl
    | cons c cs =>
      have hc : isDigitC c = false := by
        simpa [headNotDigit] using hr
      simp [spanDigits, hc]
  | cons d ds ih =>
    intro rest hall hr
    rw [List.all_cons, Bool.and_eq_true] at hall
    simp [spanDigits, hall.1, ih rest hall.2 hr]


theorem expectLit_append : ∀ lit rest : Chars, expectLit lit (lit ++ rest) = some rest := by
  intro lit
  induction lit with
  | nil => intro rest; rfl
  | cons l ls ih => intro rest; simp [expectLit, ih]


theorem parseStrBody_esc : ∀ s rest, parseStrBody (escString s ++ '"' :: rest) = some (s, rest) := by
  intro s
  induction s with
  | nil =>
    intro rest
    show parseStrBody ('"' :: rest) = some ([], rest)
    unfold parseStrBody; simp
  | cons c cs ih =>
    intro rest
    by_cases h1 : c = '"'
    · subst h1; simp [escString, escChar, parseStrBody, unescChar, ih]
    · by_cases h2 : c = '\\'
      · subst h2; simp [escString, escChar, parseStrBody, unescChar, ih]
      · by_cases h3 : c = '\n'
        · subst h3; simp [escString, escChar, parseStrBody, unescChar, ih]
        · have hstep : escString (c :: cs) = c :: escString cs := by
            simp [escString, escChar, h1, h2, h3]
          rw [hstep, List.cons_append]
          unfold parseStrBody
          simp [h1, h2, ih]


theorem digitsToNat_cons (c : Char) (t : Chars) :
    digitsToNat (c :: t) = digitVal c * 10 ^ t.length + digitsToNat t := by
  have h0 : digitsToNat (c :: t)
      = List.foldl (fun a c => a * 10 + digitVal c) (0 * 10 + digitVal c) t := rfl
  rw [h0, digitsToNat_go]
  ring_nf


theorem digitsToNat_replicate_zero (m : Nat) : digitsToNat (List.replicate m '0') = 0 := by
  induction m with
  | zero => rfl
  | succ k ih => rw [List.replicate_succ, digitsToNat_cons, ih]; simp [digitVal]


theorem digitsToNat_padTo (k : Nat) (ds : Chars) : digitsToNat (padTo k ds) = digitsToNat ds := by
  rw [padTo, digitsToNat_append, digitsToNat_replicate_zero]
  ring


theorem padTo_all (k : Nat) (ds : Chars) (h : ds.all isDigitC = true) :
    (padTo k ds).all isDigitC = true := by
  have h2 : (List.replicate (k - ds.length) '0').all isDigitC = true := by
    rw [List.all_eq_true]
    intro c hc
    rw [List.eq_of_mem_replicate hc]
    rfl
  rw [padTo, List.all_append, h, h2]
  rfl


theorem padTo_length (k : Nat) (ds : Chars) : (padTo k ds).length = max k ds.length := by
  simp [padTo]
  omega


theorem delimOk_headNotDigit {rest : Chars} (h : delimOk rest = true) :
    headNotDigit rest = true := by
  cases rest with
  | nil => rfl
  | cons c cs =>
    simp [delimOk] at h
    simp [headNotDigit, h.1]


theorem parseNumPos_int (a : Nat) (rest : Chars) (hr : delimOk rest = true) :
    parseNumPos (natDigits a ++ rest) = some (.int (a : Int), rest) := by
  have hspan := spanDigits_append (natDigits a) rest (natDigits_all a) (delimOk_headNotDigit hr)
  obtain ⟨d, ds, hds⟩ := List.exists_cons_of_ne_nil (natDigits_ne_nil a)
  rw [hds] at hspan
  have hdtn : digitsToNat (d :: ds) = a := by
    rw [← hds, digitsToNat_natDigits]
  rw [hds, parseNumPos, hspan]
  cases rest with
  | nil => simp [hdtn]
  | cons c cs =>
    have hc : ¬(c = '.') := by
      simp [delimOk] at hr
      exact hr.2
    split
    · rename_i heq
      injection heq with h1 h2
      exact absurd h1 (List.cons_ne_nil d ds)
    · rename_i heq
      injection heq with h1 h2
      subst h2
      rw [← h1, hdtn]
      split
      · rename_i r2 heq2
        exfalso
        injection heq2 with h3 h4
        exact hc h3
      · rfl


theorem parseNumPos_digitsplit (P : Chars) (e : Nat) (he : 1 ≤ e)
    (hall : P.all isDigitC = true) (hlen : e + 1 ≤ P.length)
    (rest : Chars) (hr : delimOk rest = true) :
    parseNumPos ((P.take (P.length - e) ++ '.' :: P.drop (P.length - e)) ++ rest)
      = some (.float ((digitsToNat P : Nat) : Int) e, rest) := by
  have hipall : (P.take (P.length - e)).all isDigitC = true :=
    List.all_eq_true.mpr fun c hc =>
      List.all_eq_true.mp hall c (List.take_subset _ _ hc)
  have hfpall : (P.drop (P.length - e)).all isDigitC = true :=
    List.all_eq_true.mpr fun c hc =>
      List.all_eq_true.mp hall c (List.drop_subset _ _ hc)
  have hiplen : (P.take (P.length - e)).length = P.length - e := by
    rw [List.length_take]; omega
  have hfplen : (P.drop (P.length - e)).length = e := by
    rw [List.length_drop]; omega
  obtain ⟨i0, I2, hI⟩ := List.exists_cons_of_ne_nil
    (show P.take (P.length - e) ≠ [] by
      intro hnil; rw [hnil] at hiplen; simp at hiplen; omega)
  obtain ⟨f0, F2, hF⟩ := List.exists_cons_of_ne_nil
    (show P.drop (P.length - e) ≠ [] by
      intro hnil; rw [hnil] at hfplen; simp at hfplen; omega)
  have hspan1 : spanDigits (P.take (P.length - e) ++ '.' :: (P.drop (P.length - e) ++ rest))
      = (P.take (P.length - e), '.' :: (P.drop (P.length - e) ++ rest)) :=
    spanDigits_append _ _ hipall (by rfl)
  have hspan2 : spanDigits (P.drop (P.length - e) ++ rest) = (P.drop (P.length - e), rest) :=
    spanDigits_append _ _ hfpall (delimOk_headNotDigit hr)
  have hval : digitsToNat (P.take (P.length - e)) * 10 ^ e + digitsToNat (P.drop (P.length - e))
      = digitsToNat P := by
    conv_rhs => rw [← List.take_append_drop (P.length - e) P]
    rw [digitsToNat_append, hfplen]
  rw [List.append_assoc, List.cons_append, parseNumPos]
  rw [hI] at hspan1
  rw [hI, hspan1]
  rw [hF] at hspan2
  rw [hF]
  simp only [hspan2]
  have hlenF : (f0 :: F2).length = e := by rw [← hF, hfplen]
  have hvalIF : digitsToNat (i0 :: I2) * 10 ^ (f0 :: F2).length + digitsToNat (f0 :: F2)
      = digitsToNat P := by
    rw [hlenF, ← hI, ← hF, hval]
  rw [hvalIF, hlenF]


theorem parseNumPos_float (a e : Nat) (he : 1 ≤ e) (rest : Chars) (hr : delimOk rest = true) :
    parseNumPos (floatDigits a e ++ rest) = some (.float ((a : Nat) : Int) e, rest) := by
  have h := parseNumPos_digitsplit (padTo (e+1) (natDigits a)) e he
    (padTo_all _ _ (natDigits_all a))
    (by rw [padTo_length]; omega) rest hr
  rw [digitsToNat_padTo, digitsToNat_natDigits] at h
  rw [floatDigits]
  exact h


theorem parseV_digit (fuel : Nat) (c : Char) (cs : Chars) (h : isDigitC c = true) :
    parseV (fuel+1) (c :: cs) = parseNumPos (c :: cs) := by
  have h1 : ¬(c = '"') := isDigitC_ne h (by rfl)
  have h2 : ¬(c = '[') := isDigitC_ne h (by rfl)
  have h3 : ¬(c = '{') := isDigitC_ne h (by rfl)
  have h4 : ¬(c = '-') := isDigitC_ne h (by rfl)
  unfold parseV
  simp [h1, h2, h3, h4, h]


theorem parseV_dash (fuel : Nat) (cs : Chars) :
    parseV (fuel+1) ('-' :: cs) = parseNumNeg cs := by
  unfold parseV
  simp


theorem natDigits_head_digit (a : Nat) :
    ∃ d ds, natDigits a = d :: ds ∧ isDigitC d = true := by
  obtain ⟨d, ds, hds⟩ := List.exists_cons_of_ne_nil (natDigits_ne_nil a)
  refine ⟨d, ds, hds, ?_⟩
  exact List.all_eq_true.mp (natDigits_all a) d (by rw [hds]; exact List.mem_cons_self d ds)


theorem parse_intChars (fuel : Nat) (n : Int) (rest : Chars) (hr : delimOk rest = true) :
    parseV (fuel+1) (intChars n ++ rest) = some (.int n, rest) := by
  by_cases hn : n < 0
  · have hi : intChars n = '-' :: natDigits n.natAbs := by rw [intChars, if_pos hn]
    rw [hi, List.cons_append, parseV_dash, parseNumNeg, parseNumPos_int _ _ hr]
    have hcast : -((n.natAbs : Nat) : Int) = n := by omega
    simp [hcast]
    rw [abs_of_neg hn, neg_neg]
  · have hi : intChars n = natDigits n.natAbs := by rw [intChars, if_neg hn]
    obtain ⟨d, ds, hds, hd⟩ := natDigits_head_digit n.natAbs
    rw [hi, hds, List.cons_append, parseV_digit _ _ _ hd, ← List.cons_append, ← hds,
      parseNumPos_int _ _ hr]
    have hcast : ((n.natAbs : Nat) : Int) = n := by omega
    rw [hcast]


theorem floatDigits_head_digit (a e : Nat) :
    ∃ d ds, floatDigits a e = d :: ds ∧ isDigitC d = true := by
  have hlen : e + 1 ≤ (padTo (e+1) (natDigits a)).length := by
    rw [padTo_length]; omega
  have hiplen : ((padTo (e+1) (natDigits a)).take ((padTo (e+1) (natDigits a)).length - e)).length
      = (padTo (e+1) (natDigits a)).length - e := by
    rw [List.length_take]; omega
  obtain ⟨d, ds, hds⟩ := List.exists_cons_of_ne_nil
    (show (padTo (e+1) (natDigits a)).take ((padTo (e+1) (natDigits a)).length - e) ≠ [] by
      intro hnil; rw [hnil] at hiplen; simp at hiplen; omega)
  refine ⟨d, ds ++ '.' :: (padTo (e+1) (natDigits a)).drop ((padTo (e+1) (natDigits a)).length - e), ?_, ?_⟩
  · rw [floatDigits, hds, List.cons_append]
  · have hmem : d ∈ padTo (e+1) (natDigits a) :=
      List.take_subset _ _ (by rw [hds]; exact List.mem_cons_self d ds)
    exact List.all_eq_true.mp (padTo_all _ _ (natDigits_all a)) d hmem


theorem parse_floatChars (fuel : Nat) (m : Int) (e : Nat) (he : 1 ≤ e) (rest : Chars)
    (hr : delimOk rest = true) :
    parseV (fuel+1) (floatChars m e ++ rest) = some (.float m e, rest) := by
  by_cases hm : m < 0
  · have hi : floatChars m e = '-' :: floatDigits m.natAbs e := by rw [floatChars, if_pos hm]
    rw [hi, List.cons_append, parseV_dash, parseNumNeg, parseNumPos_float _ _ he _ hr]
    have hcast : -((m.natAbs : Nat) : Int) = m := by omega
    simp [hcast]
    rw [abs_of_neg hm, neg_neg]
  · have hi : floatChars m e = floatDigits m.natAbs e := by rw [floatChars, if_neg hm]
    obtain ⟨d, ds, hds, hd⟩ := floatDigits_head_digit m.natAbs e
    rw [hi, hds, List.cons_append, parseV_digit _ _ _ hd, ← List.cons_append, ← hds,
      parseNumPos_float _ _ he _ hr]
    have hcast : ((m.natAbs : Nat) : Int) = m := by omega
    rw [hcast]


theorem flow_ne_nil (v : GValue) : flowV v ≠ [] := by
  cases v with
  | null => decide
  | bool b => cases b <;> decide
  | int n =>
    show intChars n ≠ []
    rw [intChars]
    by_cases hn : n < 0
    · rw [if_pos hn]; simp
    · rw [if_neg hn]; exact natDigits_ne_nil _
  | float m e =>
    show floatChars m e ≠ []
    rw [floatChars]
    by_cases hm : m < 0
    · rw [if_pos hm]; simp
    · rw [if_neg hm]
      obtain ⟨d, ds, hds, _⟩ := floatDigits_head_digit m.natAbs e
      rw [hds]; simp
  | str s => simp [flowV]
  | seq xs => simp [flowV]
  | map kvs => simp [flowV]


theorem flowV_head_cases (v : GValue) (d : Char) (t : Chars) (h : flowV v = d :: t) :
    d = '"' ∨ d = '[' ∨ d = '{' ∨ d = '-' ∨ d = 'n' ∨ d = 't' ∨ d = 'f'
      ∨ isDigitC d = true := by
  cases v with
  | null =>
    rw [show flowV GValue.null = 'n' :: ['u','l','l'] from rfl] at h
    injection h with h1 _
    exact Or.inr (Or.inr (Or.inr (Or.inr (Or.inl h1.symm))))
  | bool b =>
    cases b
    · rw [show flowV (GValue.bool false) = 'f' :: ['a','l','s','e'] from rfl] at h
      injection h with h1 _
      exact Or.inr (Or.inr (Or.inr (Or.inr (Or.inr (Or.inr (Or.inl h1.symm))))))
    · rw [show flowV (GValue.bool true) = 't' :: ['r','u','e'] from rfl] at h
      injection h with h1 _
      exact Or.inr (Or.inr (Or.inr (Or.inr (Or.inr (Or.inl h1.symm)))))
  | int n =>
    rw [show flowV (GValue.int n) = intChars n from rfl, intChars] at h
    by_cases hn : n < 0
    · rw [if_pos hn] at h
      injection h with h1 _
      exact Or.inr (Or.inr (Or.inr (Or.inl h1.symm)))
    · rw [if_neg hn] at h
      obtain ⟨d0, ds, hds, hd0⟩ := natDigits_head_digit n.natAbs
      rw [hds] at h
      injection h with h1 _
      right; right; right; right; right; right; right
      rw [← h1]; exact hd0
  | float m e =>
    rw [show flowV (GValue.float m e) = floatChars m e from rfl, floatChars] at h
    by_cases hm : m < 0
    · rw [if_pos hm] at h
      injection h with h1 _
      exact Or.inr (Or.inr (Or.inr (Or.inl h1.symm)))
    · rw [if_neg hm] at h
      obtain ⟨d0, ds, hds, hd0⟩ := floatDigits_head_digit m.natAbs e
      rw [hds] at h
      injection h with h1 _
      right; right; right; right; right; right; right
      rw [← h1]; exact hd0
  | str s =>
    rw [show flowV (GValue.str s) = '"' :: (escString s ++ ['"']) from rfl] at h
    injection h with h1 _
    exact Or.inl h1.symm
  | seq xs =>
    rw [show flowV (GValue.seq xs) = '[' :: flowItems xs from rfl] at h
    injection h with h1 _
    exact Or.inr (Or.inl h1.symm)
  | map kvs =>
    rw [show flowV (GValue.map kvs) = '{' :: flowMembers kvs from rfl] at h
    injection h with h1 _
    exact Or.inr (Or.inr (Or.inl h1.symm))


theorem flowV_head_ne (v : GValue) (d : Char) (t : Chars) (h : flowV v = d :: t) :
    ¬(d = ']') ∧ ¬(d = ',') ∧ ¬(d = '}') := by
  rcases flowV_head_cases v d t h with h1|h1|h1|h1|h1|h1|h1|h1
  · subst h1; refine ⟨by decide, by decide, by decide⟩
  · subst h1; refine ⟨by decide, by decide, by decide⟩
  · subst h1; refine ⟨by decide, by decide, by decide⟩
  · subst h1; refine ⟨by decide, by decide, by decide⟩
  · subst h1; refine ⟨by decide, by decide, by decide⟩
  · subst h1; refine ⟨by decide, by decide, by decide⟩
  · subst h1; refine ⟨by decide, by decide, by decide⟩
  · exact ⟨isDigitC_ne h1 (by rfl), isDigitC_ne h1 (by rfl), isDigitC_ne h1 (by rfl)⟩


theorem gfuel_pos (v : GValue) : 1 ≤ gfuel v := by
  cases v with
  | null => exact le_refl 1
  | bool b => exact le_refl 1
  | int n => exact le_refl 1
  | float m e => exact le_refl 1
  | str s => exact le_refl 1
  | seq xs => show 1 ≤ 1 + gfuelItems xs; omega
  | map kvs => show 1 ≤ 1 + gfuelMembers kvs; omega


theorem gfuelItems_pos (xs : List GValue) : 1 ≤ gfuelItems xs := by
  match xs with
  | [] => exact le_refl 1
  | [x] => show 1 ≤ 1 + gfuel x; omega
  | x :: y :: ys => show 1 ≤ 1 + gfuel x + gfuelItems (y :: ys); omega


theorem gfuelMembers_pos (kvs : List (Chars × GValue)) : 1 ≤ gfuelMembers kvs := by
  match kvs with
  | [] => exact le_refl 1
  | [(k,v)] => show 1 ≤ 1 + gfuel v; omega
  | (k,v) :: kv :: rest => show 1 ≤ 1 + gfuel v + gfuelMembers (kv :: rest); omega


theorem parse_flow (fuel : Nat) :
    (∀ v rest, commonOK v = true → gfuel v ≤ fuel → delimOk rest = true →
      parseV fuel (flowV v ++ rest) = some (v, rest)) ∧
    (∀ xs rest, commonOKItems xs = true → gfuelItems xs ≤ fuel →
      parseItems fuel (flowItems xs ++ rest) = some (xs, rest)) ∧
    (∀ kvs rest, commonOKMembers kvs = true → gfuelMembers kvs ≤ fuel →
      parseMembers fuel (flowMembers kvs ++ rest) = some (kvs, rest)) := by
  induction fuel with
  | zero =>
    refine ⟨?_, ?_, ?_⟩
    · intro v rest _ hf _; exact absurd hf (by have := gfuel_pos v; omega)
    · intro xs rest _ hf; exact absurd hf (by have := gfuelItems_pos xs; omega)
    · intro kvs rest _ hf; exact absurd hf (by have := gfuelMembers_pos kvs; omega)
  | succ n ih =>
    obtain ⟨ihV, ihI, ihM⟩ := ih
    refine ⟨?_, ?_, ?_⟩
    · intro v rest hok hfuel hrest
      cases v with
      | null => exact absurd hok (by simp [commonOK])
      | bool b =>
        cases b
        · show parseV (n+1) (('f' :: ['a','l','s','e']) ++ rest) = some (.bool false, rest)
          rw [List.cons_append]
          unfold parseV
          simp [expectLit, show isDigitC 'f' = false from rfl]
        · show parseV (n+1) (('t' :: ['r','u','e']) ++ rest) = some (.bool true, rest)
          rw [List.cons_append]
          unfold parseV
          simp [expectLit, show isDigitC 't' = false from rfl]
      | int k => exact parse_intChars n k rest hrest
      | float m e =>
        have he : 1 ≤ e := by
          have h2 : commonOK (.float m e) = decide (1 ≤ e) := rfl
          rw [h2] at hok
          exact of_decide_eq_true hok
        exact parse_floatChars n m e he rest hrest
      | str s =>
        show parseV (n+1) (('"' :: (escString s ++ ['"'])) ++ rest) = some (.str s, rest)
        rw [List.cons_append, List.append_assoc]
        unfold parseV
        simp [parseStrBody_esc]
      | seq xs =>
        have hoi : commonOKItems xs = true := hok
        have hfi : gfuelItems xs ≤ n := by
          have h2 : gfuel (.seq xs) = 1 + gfuelItems xs := rfl
          rw [h2] at hfuel; omega
        show parseV (n+1) (('[' :: flowItems xs) ++ rest) = some (.seq xs, rest)
        rw [List.cons_append]
        unfold parseV
        simp [ihI xs rest hoi hfi]
      | map kvs =>
        have hom : commonOKMembers kvs = true := hok
        have hfm : gfuelMembers kvs ≤ n := by
          have h2 : gfuel (.map kvs) = 1 + gfuelMembers kvs := rfl
          rw [h2] at hfuel; omega
        show parseV (n+1) (('{' :: flowMembers kvs) ++ rest) = some (.map kvs, rest)
        rw [List.cons_append]
        unfold parseV
        simp [ihM kvs rest hom hfm]
    · intro xs rest hok hfuel
      rcases xs with _ | ⟨x, xs2⟩
      · show parseItems (n+1) (']' :: rest) = some ([], rest)
        unfold parseItems
        simp
      rcases xs2 with _ | ⟨y, ys⟩
      · have hx : commonOK x = true := by
          have h2 : commonOKItems [x] = (commonOK x && commonOKItems []) := rfl
          rw [h2, Bool.and_eq_true] at hok
          exact hok.1
        have hfx : gfuel x ≤ n := by
          have h2 : gfuelItems [x] = 1 + gfuel x := rfl
          rw [h2] at hfuel; omega
        obtain ⟨d, t, hd⟩ := List.exists_cons_of_ne_nil (flow_ne_nil x)
        have hdn := flowV_head_ne x d t hd
        have hpv : parseV n (flowV x ++ (']' :: rest)) = some (x, ']' :: rest) :=
          ihV x (']' :: rest) hx hfx (by rfl)
        have hback : d :: (t ++ (']' :: rest)) = flowV x ++ (']' :: rest) := by
          rw [hd]; rfl
        show parseItems (n+1) ((flowV x ++ [']']) ++ rest) = some ([x], rest)
        rw [List.append_assoc, List.singleton_append, hd, List.cons_append]
        unfold parseItems
        simp only [hdn.1, if_false, hback, hpv]
      · have hx : commonOK x = true := by
          have h2 : commonOKItems (x :: y :: ys) = (commonOK x && commonOKItems (y :: ys)) := rfl
          rw [h2, Bool.and_eq_true] at hok
          exact hok.1
        have hoi : commonOKItems (y :: ys) = true := by
          have h2 : commonOKItems (x :: y :: ys) = (commonOK x && commonOKItems (y :: ys)) := rfl
          rw [h2, Bool.and_eq_true] at hok
          exact hok.2
        have hfx : gfuel x ≤ n := by
          have h2 : gfuelItems (x :: y :: ys) = 1 + gfuel x + gfuelItems (y :: ys) := rfl
          rw [h2] at hfuel
          have := gfuelItems_pos (y :: ys)
          omega
        have hfi : gfuelItems (y :: ys) ≤ n := by
          have h2 : gfuelItems (x :: y :: ys) = 1 + gfuel x + gfuelItems (y :: ys) := rfl
          rw [h2] at hfuel
          have := gfuel_pos x
          omega
        obtain ⟨d, t, hd⟩ := List.exists_cons_of_ne_nil (flow_ne_nil x)
        have hdn := flowV_head_ne x d t hd
        have hpv : parseV n (flowV x ++ (',' :: (flowItems (y :: ys) ++ rest)))
            = some (x, ',' :: (flowItems (y :: ys) ++ rest)) :=
          ihV x (',' :: (flowItems (y :: ys) ++ rest)) hx hfx (by rfl)
        have hpi : parseItems n (flowItems (y :: ys) ++ rest) = some (y :: ys, rest) :=
          ihI (y :: ys) rest hoi hfi
        have hback : d :: (t ++ (',' :: (flowItems (y :: ys) ++ rest)))
            = flowV x ++ (',' :: (flowItems (y :: ys) ++ rest)) := by
          rw [hd]; rfl
        show parseItems (n+1) ((flowV x ++ ',' :: flowItems (y :: ys)) ++ rest)
          = some (x :: y :: ys, rest)
        rw [List.append_assoc, List.cons_append, hd, List.cons_append]
        unfold parseItems
        simp only [hdn.1, if_false, hback, hpv, hpi]
    · intro kvs rest hok hfuel
      rcases kvs with _ | ⟨⟨k, v⟩, kvs2⟩
      · show parseMembers (n+1) ('}' :: rest) = some ([], rest)
        unfold parseMembers
        simp
      rcases kvs2 with _ | ⟨⟨k2, v2⟩, kvs3⟩
      · have hv : commonOK v = true := by
          have h2 : commonOKMembers [(k, v)] = (commonOK v && commonOKMembers []) := rfl
          rw [h2, Bool.and_eq_true] at hok
          exact hok.1
        have hfv : gfuel v ≤ n := by
          have h2 : gfuelMembers [(k, v)] = 1 + gfuel v := rfl
          rw [h2] at hfuel; omega
        have hpv : parseV n (flowV v ++ ('}' :: rest)) = some (v, '}' :: rest) :=
          ihV v ('}' :: rest) hv hfv (by rfl)
        have harm : flowMembers [(k, v)]
            = '"' :: escString k ++ '"' :: ':' :: flowV v ++ ['}'] := by
          simp only [flowMembers]
        rw [harm]
        simp only [List.cons_append, List.append_assoc, List.singleton_append]
        unfold parseMembers
        simp [parseStrBody_esc, hpv]
      · have hv : commonOK v = true := by
          have h2 : commonOKMembers ((k, v) :: (k2, v2) :: kvs3)
              = (commonOK v && commonOKMembers ((k2, v2) :: kvs3)) := rfl
          rw [h2, Bool.and_eq_true] at hok
          exact hok.1
        have hom : commonOKMembers ((k2, v2) :: kvs3) = true := by
          have h2 : commonOKMembers ((k, v) :: (k2, v2) :: kvs3)
              = (commonOK v && commonOKMembers ((k2, v2) :: kvs3)) := rfl
          rw [h2, Bool.and_eq_true] at hok
          exact hok.2
        have hfv : gfuel v ≤ n := by
          have h2 : gfuelMembers ((k, v) :: (k2, v2) :: kvs3)
              = 1 + gfuel v + gfuelMembers ((k2, v2) :: kvs3) := rfl
          rw [h2] at hfuel
          have := gfuelMembers_pos ((k2, v2) :: kvs3)
          omega
        have hfm : gfuelMembers ((k2, v2) :: kvs3) ≤ n := by
          have h2 : gfuelMembers ((k, v) :: (k2, v2) :: kvs3)
              = 1 + gfuel v + gfuelMembers ((k2, v2) :: kvs3) := rfl
          rw [h2] at hfuel
          have := gfuel_pos v
          omega
        have hpv : parseV n (flowV v ++ (',' :: (flowMembers ((k2, v2) :: kvs3) ++ rest)))
            = some (v, ',' :: (flowMembers ((k2, v2) :: kvs3) ++ rest)) :=
          ihV v (',' :: (flowMembers ((k2, v2) :: kvs3) ++ rest)) hv hfv (by rfl)
        have hpm : parseMembers n (flowMembers ((k2, v2) :: kvs3) ++ rest)
            = some ((k2, v2) :: kvs3, rest) :=
          ihM ((k2, v2) :: kvs3) rest hom hfm
        have harm : flowMembers ((k, v) :: (k2, v2) :: kvs3)
            = '"' :: escString k ++ '"' :: ':' :: flowV v ++ ',' :: flowMembers ((k2, v2) :: kvs3) := by
          simp only [flowMembers]
        rw [harm]
        simp only [List.cons_append, List.append_assoc]
        unfold parseMembers
        simp [parseStrBody_esc, hpv, hpm]


mutual

theorem gfuel_le_len : ∀ v : GValue, gfuel v ≤ (flowV v).length := by
  intro v
  match v with
  | .null => decide
  | .bool b => cases b <;> decide
  | .int n =>
    have h1 : gfuel (.int n) = 1 := rfl
    rw [h1]
    exact List.length_pos.mpr (flow_ne_nil _)
  | .float m e =>
    have h1 : gfuel (.float m e) = 1 := rfl
    rw [h1]
    exact List.length_pos.mpr (flow_ne_nil _)
  | .str s =>
    have h1 : gfuel (.str s) = 1 := rfl
    rw [h1]
    exact List.length_pos.mpr (flow_ne_nil _)
  | .seq xs =>
    have h := gfuelItems_le_len xs
    have h1 : gfuel (.seq xs) = 1 + gfuelItems xs := rfl
    have h2 : flowV (.seq xs) = '[' :: flowItems xs := rfl
    rw [h1, h2, List.length_cons]
    omega
  | .map kvs =>
    have h := gfuelMembers_le_len kvs
    have h1 : gfuel (.map kvs) = 1 + gfuelMembers kvs := rfl
    have h2 : flowV (.map kvs) = '{' :: flowMembers kvs := rfl
    rw [h1, h2, List.length_cons]
    omega

theorem gfuelItems_le_len : ∀ xs : List GValue, gfuelItems xs ≤ (flowItems xs).length := by
  intro xs
  match xs with
  | [] => decide
  | [x] =>
    have h := gfuel_le_len x
    have h1 : gfuelItems [x] = 1 + gfuel x := rfl
    have h2 : flowItems [x] = flowV x ++ [']'] := by simp only [flowItems]
    rw [h1, h2, List.length_append]
    simp
    omega
  | x :: y :: ys =>
    have h := gfuel_le_len x
    have h3 := gfuelItems_le_len (y :: ys)
    have h1 : gfuelItems (x :: y :: ys) = 1 + gfuel x + gfuelItems (y :: ys) := rfl
    have h2 : flowItems (x :: y :: ys) = flowV x ++ ',' :: flowItems (y :: ys) := by
      simp only [flowItems]
    rw [h1, h2, List.length_append, List.length_cons]
    omega

theorem gfuelMembers_le_len :
    ∀ kvs : List (Chars × GValue), gfuelMembers kvs ≤ (flowMembers kvs).length := by
  intro kvs
  match kvs with
  | [] => decide
  | [(k, v)] =>
    have h := gfuel_le_len v
    have h1 : gfuelMembers [(k, v)] = 1 + gfuel v := rfl
    have h2 : flowMembers [(k, v)] = '"' :: escString k ++ '"' :: ':' :: flowV v ++ ['}'] := by
      simp only [flowMembers]
    rw [h1, h2]
    simp [List.length_append]
    omega
  | (k, v) :: kv2 :: kvs3 =>
    have h := gfuel_le_len v
    have h3 := gfuelMembers_le_len (kv2 :: kvs3)
    have h1 : gfuelMembers ((k, v) :: kv2 :: kvs3)
        = 1 + gfuel v + gfuelMembers (kv2 :: kvs3) := by
      match kv2 with
      | (k2, v2) => rfl
    have h2 : flowMembers ((k, v) :: kv2 :: kvs3)
        = '"' :: escString k ++ '"' :: ':' :: flowV v ++ ',' :: flowMembers (kv2 :: kvs3) := by
      match kv2 with
      | (k2, v2) => simp only [flowMembers]
    rw [h1, h2]
    simp [List.length_append]
    omega

end

/-- Round-trip of the flow rendering on the common subset. -/
theorem parseVFull_flow (v : GValue) (h : commonOK v = true) :
    parseVFull (flowV v) = some v := by
  have hb := gfuel_le_len v
  have h2 := (parse_flow ((flowV v).length + 1)).1 v [] h (by omega) (by rfl)
  rw [List.append_nil] at h2
  unfold parseVFull
  rw [h2]


theorem not_mem_of_all_digits {ds : Chars} (h : ds.all isDigitC = true) {c : Char}
    (hc : isDigitC c = false) : c ∉ ds := by
  intro hmem
  have := List.all_eq_true.mp h c hmem
  rw [this] at hc
  cases hc


theorem nl_not_mem_intChars (n : Int) : '\n' ∉ intChars n := by
  rw [intChars]
  by_cases hn : n < 0
  · rw [if_pos hn]
    intro hmem
    rcases List.mem_cons.mp hmem with h | h
    · cases h
    · exact not_mem_of_all_digits (natDigits_all _) (by rfl) h
  · rw [if_neg hn]
    exact not_mem_of_all_digits (natDigits_all _) (by rfl)


theorem nl_not_mem_floatDigits (a e : Nat) : '\n' ∉ floatDigits a e := by
  rw [floatDigits]
  intro hmem
  rcases List.mem_append.mp hmem with h | h
  · exact not_mem_of_all_digits
      (List.all_eq_true.mpr fun c hc =>
        List.all_eq_true.mp (padTo_all _ _ (natDigits_all a)) c (List.take_subset _ _ hc))
      (by rfl) h
  · rcases List.mem_cons.mp h with h2 | h2
    · cases h2
    · exact not_mem_of_all_digits
        (List.all_eq_true.mpr fun c hc =>
          List.all_eq_true.mp (padTo_all _ _ (natDigits_all a)) c (List.drop_subset _ _ hc))
        (by rfl) h2


theorem nl_not_mem_floatChars (m : Int) (e : Nat) : '\n' ∉ floatChars m e := by
  rw [floatChars]
  by_cases hm : m < 0
  · rw [if_pos hm]
    intro hmem
    rcases List.mem_cons.mp hmem with h | h
    · cases h
    · exact nl_not_mem_floatDigits _ _ h
  · rw [if_neg hm]
    exact nl_not_mem_floatDigits _ _


theorem nl_not_mem_escString (s : Chars) : '\n' ∉ escString s := by
  induction s with
  | nil => simp [escString]
  | cons c cs ih =>
    have harm : escString (c :: cs) = escChar c ++ escString cs := rfl
    rw [harm]
    intro hmem
    rcases List.mem_append.mp hmem with h | h
    · rw [escChar] at h
      by_cases h1 : c = '"'
      · rw [if_pos h1] at h; simp at h
      · rw [if_neg h1] at h
        by_cases h2 : c = '\\'
        · rw [if_pos h2] at h; simp at h
        · rw [if_neg h2] at h
          by_cases h3 : c = '\n'
          · rw [if_pos h3] at h; simp at h
          · rw [if_neg h3] at h
            simp at h
            exact h3 h.symm
    · exact ih h


mutual

theorem nl_not_mem_flowV : ∀ v : GValue, '\n' ∉ flowV v := by
  intro v
  match v with
  | .null => decide
  | .bool b => cases b <;> decide
  | .int n => exact nl_not_mem_intChars n
  | .float m e => exact nl_not_mem_floatChars m e
  | .str s =>
    show '\n' ∉ '"' :: (escString s ++ ['"'])
    intro hmem
    rcases List.mem_cons.mp hmem with h | h
    · cases h
    · rcases List.mem_append.mp h with h2 | h2
      · exact nl_not_mem_escString s h2
      · simp at h2
  | .seq xs =>
    show '\n' ∉ '[' :: flowItems xs
    intro hmem
    rcases List.mem_cons.mp hmem with h | h
    · cases h
    · exact nl_not_mem_flowItems xs h
  | .map kvs =>
    show '\n' ∉ '{' :: flowMembers kvs
    intro hmem
    rcases List.mem_cons.mp hmem with h | h
    · cases h
    · exact nl_not_mem_flowMembers kvs h

theorem nl_not_mem_flowItems : ∀ xs : List GValue, '\n' ∉ flowItems xs := by
  intro xs
  match xs with
  | [] => decide
  | [x] =>
    have harm : flowItems [x] = flowV x ++ [']'] := by simp only [flowItems]
    rw [harm]
    intro hmem
    rcases List.mem_append.mp hmem with h | h
    · exact nl_not_mem_flowV x h
    · simp at h
  | x :: y :: ys =>
    have harm : flowItems (x :: y :: ys) = flowV x ++ ',' :: flowItems (y :: ys) := by
      simp only [flowItems]
    rw [harm]
    intro hmem
    rcases List.mem_append.mp hmem with h | h
    · exact nl_not_mem_flowV x h
    · rcases List.mem_cons.mp h with h2 | h2
      · cases h2
      · exact nl_not_mem_flowItems (y :: ys) h2

theorem nl_not_mem_flowMembers : ∀ kvs : List (Chars × GValue), '\n' ∉ flowMembers kvs := by
  intro kvs
  match kvs with
  | [] => decide
  | [(k, v)] =>
    have harm : flowMembers [(k, v)] = '"' :: escString k ++ '"' :: ':' :: flowV v ++ ['}'] := by
      simp only [flowMembers]
    rw [harm]
    intro hmem
    rcases List.mem_cons.mp hmem with h | h
    · cases h
    · rcases List.mem_append.mp h with h2 | h2
      · rcases List.mem_append.mp h2 with h3 | h3
        · exact nl_not_mem_escString k h3
        · rcases List.mem_cons.mp h3 with h4 | h4
          · cases h4
          · rcases List.mem_cons.mp h4 with h5 | h5
            · cases h5
            · exact nl_not_mem_flowV v h5
      · simp at h2
  | (k, v) :: kv2 :: kvs3 =>
    have harm : flowMembers ((k, v) :: kv2 :: kvs3)
        = '"' :: escString k ++ '"' :: ':' :: flowV v ++ ',' :: flowMembers (kv2 :: kvs3) := by
      match kv2 with
      | (k2, v2) => simp only [flowMembers]
    rw [harm]
    intro hmem
    rcases List.mem_cons.mp hmem with h | h
    · cases h
    · rcases List.mem_append.mp h with h2 | h2
      · rcases List.mem_append.mp h2 with h3 | h3
        · exact nl_not_mem_escString k h3
        · rcases List.mem_cons.mp h3 with h4 | h4
          · cases h4
          · rcases List.mem_cons.mp h4 with h5 | h5
            · cases h5
            · exact nl_not_mem_flowV v h5
      · rcases List.mem_cons.mp h2 with h6 | h6
        · cases h6
        · exact nl_not_mem_flowMembers (kv2 :: kvs3) h6

end

mutual

theorem commonOK_noNull : ∀ v : GValue, commonOK v = true → noNull v = true := by
  intro v h
  match v with
  | .null => cases h
  | .bool b => rfl
  | .int n => rfl
  | .float m e => rfl
  | .str s => rfl
  | .seq xs =>
    show noNullItems xs = true
    exact commonOK_noNullItems xs h
  | .map kvs =>
    show noNullMembers kvs = true
    exact commonOK_noNullMembers kvs h

theorem commonOK_noNullItems : ∀ xs : List GValue, commonOKItems xs = true → noNullItems xs = true := by
  intro xs h
  match xs with
  | [] => rfl
  | x :: rest =>
    have h2 : commonOKItems (x :: rest) = (commonOK x && commonOKItems rest) := rfl
    rw [h2, Bool.and_eq_true] at h
    show (noNull x && noNullItems rest) = true
    rw [Bool.and_eq_true]
    exact ⟨commonOK_noNull x h.1, commonOK_noNullItems rest h.2⟩

theorem commonOK_noNullMembers :
    ∀ kvs : List (Chars × GValue), commonOKMembers kvs = true → noNullMembers kvs = true := by
  intro kvs h
  match kvs with
  | [] => rfl
  | (k, v) :: rest =>
    have h2 : commonOKMembers ((k, v) :: rest) = (commonOK v && commonOKMembers rest) := rfl
    rw [h2, Bool.and_eq_true] at h
    show (noNull v && noNullMembers rest) = true
    rw [Bool.and_eq_true]
    exact ⟨commonOK_noNull v h.1, commonOK_noNullMembers rest h.2⟩

end

theorem splitLines_append (l : Chars) (hl : '\n' ∉ l) :
    ∀ s ls, splitLines s = some ls → splitLines (l ++ '\n' :: s) = some (l :: ls) := by
  induction l with
  | nil =>
    intro s ls hs
    show splitLines ('\n' :: s) = some ([] :: ls)
    unfold splitLines
    simp [hs]
  | cons c l2 ih =>
    intro s ls hs
    have hc : ¬(c = '\n') := fun he => hl (he ▸ List.mem_cons_self c l2)
    have hl2 : '\n' ∉ l2 := fun hm => hl (List.mem_cons_of_mem c hm)
    have h2 := ih hl2 s ls hs
    show splitLines (c :: (l2 ++ '\n' :: s)) = some ((c :: l2) :: ls)
    unfold splitLines
    rw [if_neg hc, h2]


theorem tomlLineOf_no_nl (kv : Chars × GValue) : '\n' ∉ tomlLineOf kv := by
  rw [tomlLineOf]
  intro hmem
  rcases List.mem_append.mp hmem with h | h
  · rcases List.mem_cons.mp h with h2 | h2
    · cases h2
    · exact nl_not_mem_escString _ h2
  · rcases List.mem_cons.mp h with h2 | h2
    · cases h2
    · rcases List.mem_cons.mp h2 with h3 | h3
      · cases h3
      · rcases List.mem_cons.mp h3 with h4 | h4
        · cases h4
        · rcases List.mem_cons.mp h4 with h5 | h5
          · cases h5
          · exact nl_not_mem_flowV _ h5


theorem yamlSeqLineOf_no_nl (x : GValue) : '\n' ∉ yamlSeqLineOf x := by
  rw [yamlSeqLineOf]
  intro hmem
  rcases List.mem_cons.mp hmem with h | h
  · cases h
  · rcases List.mem_cons.mp h with h2 | h2
    · cases h2
    · exact nl_not_mem_flowV _ h2


theorem yamlMapLineOf_no_nl (kv : Chars × GValue) : '\n' ∉ yamlMapLineOf kv := by
  rw [yamlMapLineOf]
  intro hmem
  rcases List.mem_append.mp hmem with h | h
  · rcases List.mem_cons.mp h with h2 | h2
    · cases h2
    · exact nl_not_mem_escString _ h2
  · rcases List.mem_cons.mp h with h2 | h2
    · cases h2
    · rcases List.mem_cons.mp h2 with h3 | h3
      · cases h3
      · rcases List.mem_cons.mp h3 with h4 | h4
        · cases h4
        · exact nl_not_mem_flowV _ h4


theorem splitLines_tomlLines (kvs : List (Chars × GValue)) :
    splitLines (tomlLines kvs) = some (kvs.map tomlLineOf) := by
  induction kvs with
  | nil => rfl
  | cons kv rest ih =>
    have harm : tomlLines (kv :: rest) = tomlLineOf kv ++ '\n' :: tomlLines rest := rfl
    rw [harm, List.map_cons]
    exact splitLines_append _ (tomlLineOf_no_nl kv) _ _ ih


theorem splitLines_yamlSeqLines (xs : List GValue) :
    splitLines (yamlSeqLines xs) = some (xs.map yamlSeqLineOf) := by
  induction xs with
  | nil => rfl
  | cons x rest ih =>
    have harm : yamlSeqLines (x :: rest) = yamlSeqLineOf x ++ '\n' :: yamlSeqLines rest := rfl
    rw [harm, List.map_cons]
    exact splitLines_append _ (yamlSeqLineOf_no_nl x) _ _ ih


theorem splitLines_yamlMapLines (kvs : List (Chars × GValue)) :
    splitLines (yamlMapLines kvs) = some (kvs.map yamlMapLineOf) := by
  induction kvs with
  | nil => rfl
  | cons kv rest ih =>
    have harm : yamlMapLines (kv :: rest) = yamlMapLineOf kv ++ '\n' :: yamlMapLines rest := rfl
    rw [harm, List.map_cons]
    exact splitLines_append _ (yamlMapLineOf_no_nl kv) _ _ ih


theorem parseTomlLine_lineOf (k : Chars) (v : GValue) (hv : commonOK v = true) :
    parseTomlLine (tomlLineOf (k, v)) = some (k, v) := by
  have harm : tomlLineOf (k, v)
      = '"' :: (escString k ++ '"' :: ' ' :: '=' :: ' ' :: flowV v) := rfl
  rw [harm]
  unfold parseTomlLine
  simp [parseStrBody_esc, parseVFull_flow v hv]


theorem parseYamlSeqLine_lineOf (x : GValue) (hx : commonOK x = true) :
    parseYamlSeqLine (yamlSeqLineOf x) = some x := by
  have harm : yamlSeqLineOf x = '-' :: ' ' :: flowV x := rfl
  rw [harm]
  unfold parseYamlSeqLine
  exact parseVFull_flow x hx


theorem parseYamlMapLine_lineOf (k : Chars) (v : GValue) (hv : commonOK v = true) :
    parseYamlMapLine (yamlMapLineOf (k, v)) = some (k, v) := by
  have harm : yamlMapLineOf (k, v)
      = '"' :: (escString k ++ '"' :: ':' :: ' ' :: flowV v) := rfl
  rw [harm]
  unfold parseYamlMapLine
  simp [parseStrBody_esc, parseVFull_flow v hv]


theorem mapOption_parseTomlLine (kvs : List (Chars × GValue)) (h : commonOKMembers kvs = true) :
    mapOption parseTomlLine (kvs.map tomlLineOf) = some kvs := by
  induction kvs with
  | nil => rfl
  | cons kv rest ih =>
    obtain ⟨k, v⟩ := kv
    have h2 : commonOKMembers ((k, v) :: rest) = (commonOK v && commonOKMembers rest) := rfl
    rw [h2, Bool.and_eq_true] at h
    rw [List.map_cons]
    unfold mapOption
    rw [parseTomlLine_lineOf k v h.1, ih h.2]


theorem mapOption_parseYamlSeqLine (xs : List GValue) (h : commonOKItems xs = true) :
    mapOption parseYamlSeqLine (xs.map yamlSeqLineOf) = some xs := by
  induction xs with
  | nil => rfl
  | cons x rest ih =>
    have h2 : commonOKItems (x :: rest) = (commonOK x && commonOKItems rest) := rfl
    rw [h2, Bool.and_eq_true] at h
    rw [List.map_cons]
    unfold mapOption
    rw [parseYamlSeqLine_lineOf x h.1, ih h.2]


theorem mapOption_parseYamlMapLine (kvs : List (Chars × GValue)) (h : commonOKMembers kvs = true) :
    mapOption parseYamlMapLine (kvs.map yamlMapLineOf) = some kvs := by
  induction kvs with
  | nil => rfl
  | cons kv rest ih =>
    obtain ⟨k, v⟩ := kv
    have h2 : commonOKMembers ((k, v) :: rest) = (commonOK v && commonOKMembers rest) := rfl
    rw [h2, Bool.and_eq_true] at h
    rw [List.map_cons]
    unfold mapOption
    rw [parseYamlMapLine_lineOf k v h.1, ih h.2]


/-- JSON round-trip on the common subset. -/
theorem jsonParse_ser (v : GValue) (h : commonOK v = true) :
    jsonParse (json_to_string v) = .ok v := by
  rw [json_to_string, jsonParse, parseVFull_flow v h]


/-- TOML serialization succeeds on maps without nulls. -/
theorem toml_ser_map (kvs : List (Chars × GValue)) (hok : commonOK (.map kvs) = true) :
    toml_to_string (.map kvs) = .ok (tomlLines kvs) := by
  unfold toml_to_string
  simp [commonOK_noNull _ hok]


/-- TOML parsing inverts the modelled TOML document of a nonempty map. -/
theorem tomlParse_tomlLines (kv : Chars × GValue) (rest : List (Chars × GValue))
    (hok : commonOKMembers (kv :: rest) = true) :
    tomlParse (tomlLines (kv :: rest)) = .ok (.map (kv :: rest)) := by
  have harm : tomlLines (kv :: rest) = tomlLineOf kv ++ '\n' :: tomlLines rest := rfl
  have hne : tomlLines (kv :: rest) ≠ [] := by
    rw [harm]; simp
  unfold tomlParse
  rw [if_neg hne, splitLines_tomlLines]
  have hmo : mapOption parseTomlLine (List.map tomlLineOf (kv :: rest))
      = some (kv :: rest) := mapOption_parseTomlLine _ hok
  simp only [hmo]


theorem startsDashSpace_flowV (v : GValue) : startsDashSpace (flowV v) = false := by
  cases v with
  | null => rfl
  | bool b => cases b <;> rfl
  | int n =>
    show startsDashSpace (intChars n) = false
    rw [intChars]
    by_cases hn : n < 0
    · rw [if_pos hn]
      obtain ⟨d, ds, hds, hd⟩ := natDigits_head_digit n.natAbs
      rw [hds]
      unfold startsDashSpace
      simp
      exact isDigitC_ne hd (by rfl)
    · rw [if_neg hn]
      obtain ⟨d, ds, hds, hd⟩ := natDigits_head_digit n.natAbs
      rw [hds]
      unfold startsDashSpace
      cases ds with
      | nil => simp
      | cons c2 t => simp [isDigitC_ne hd (show isDigitC '-' = false from rfl)]
  | float m e =>
    show startsDashSpace (floatChars m e) = false
    rw [floatChars]
    by_cases hm : m < 0
    · rw [if_pos hm]
      obtain ⟨d, ds, hds, hd⟩ := floatDigits_head_digit m.natAbs e
      rw [hds]
      unfold startsDashSpace
      simp
      exact isDigitC_ne hd (by rfl)
    · rw [if_neg hm]
      obtain ⟨d, ds, hds, hd⟩ := floatDigits_head_digit m.natAbs e
      rw [hds]
      unfold startsDashSpace
      cases ds with
      | nil => simp
      | cons c2 t => simp [isDigitC_ne hd (show isDigitC '-' = false from rfl)]
  | str s => rfl
  | seq xs => rfl
  | map kvs => rfl


/-- YAML round-trip for values emitted as a single flow line. -/
theorem yamlParse_flowline (v : GValue) (h : commonOK v = true)
    (hser : yaml_to_string v = flowV v ++ ['\n']) :
    yamlParse (yaml_to_string v) = .ok v := by
  rw [hser]
  have hne : ¬(flowV v ++ ['\n'] = []) := by simp
  have hsp : splitLines (flowV v ++ ['\n']) = some [flowV v] := by
    have h2 := splitLines_append (flowV v) (nl_not_mem_flowV v) [] [] rfl
    simpa using h2
  unfold yamlParse
  rw [if_neg hne, hsp]
  simp [List.all_cons, startsDashSpace_flowV v, parseVFull_flow v h]


/-- YAML round-trip for nonempty sequences (block emission). -/
theorem yamlParse_seqLines (x : GValue) (xs : List GValue)
    (hok : commonOKItems (x :: xs) = true) :
    yamlParse (yaml_to_string (.seq (x :: xs))) = .ok (.seq (x :: xs)) := by
  have hser : yaml_to_string (.seq (x :: xs)) = yamlSeqLines (x :: xs) := rfl
  have harm : yamlSeqLines (x :: xs) = yamlSeqLineOf x ++ '\n' :: yamlSeqLines xs := rfl
  have hne : ¬(yamlSeqLines (x :: xs) = []) := by rw [harm]; simp
  have hall : ((x :: xs).map yamlSeqLineOf).all startsDashSpace = true :=
    List.all_eq_true.mpr fun l hl => by
      obtain ⟨y, _, hy⟩ := List.mem_map.mp hl
      rw [← hy]
      rfl
  rw [hser]
  unfold yamlParse
  rw [if_neg hne, splitLines_yamlSeqLines]
  rw [List.map_cons]
  rw [List.map_cons] at hall
  simp only [hall, if_true]
  have hmo : mapOption parseYamlSeqLine (yamlSeqLineOf x :: List.map yamlSeqLineOf xs)
      = some (x :: xs) := by
    rw [← List.map_cons]
    exact mapOption_parseYamlSeqLine _ hok
  simp only [hmo]


theorem parseVFull_yamlMapLineOf (k : Chars) (v : GValue) :
    parseVFull (yamlMapLineOf (k, v)) = none := by
  have harm : yamlMapLineOf (k, v) = '"' :: (escString k ++ '"' :: ':' :: ' ' :: flowV v) := rfl
  rw [harm]
  unfold parseVFull
  unfold parseV
  simp [parseStrBody_esc]


/-- YAML round-trip for nonempty maps (block emission). -/
theorem yamlParse_mapLines (k : Chars) (v : GValue) (kvs : List (Chars × GValue))
    (hok : commonOKMembers ((k, v) :: kvs) = true) :
    yamlParse (yaml_to_string (.map ((k, v) :: kvs))) = .ok (.map ((k, v) :: kvs)) := by
  have hser : yaml_to_string (.map ((k, v) :: kvs)) = yamlMapLines ((k, v) :: kvs) := rfl
  have harm : yamlMapLines ((k, v) :: kvs)
      = yamlMapLineOf (k, v) ++ '\n' :: yamlMapLines kvs := rfl
  have hne : ¬(yamlMapLines ((k, v) :: kvs) = []) := by rw [harm]; simp
  have hv : commonOK v = true := by
    have h2 : commonOKMembers ((k, v) :: kvs) = (commonOK v && commonOKMembers kvs) := rfl
    rw [h2, Bool.and_eq_true] at hok
    exact hok.1
  have hallf : (yamlMapLineOf (k, v) :: List.map yamlMapLineOf kvs).all startsDashSpace
      = false := by
    rw [List.all_cons]
    rw [show startsDashSpace (yamlMapLineOf (k, v)) = false from rfl]
    rfl
  rw [hser]
  unfold yamlParse
  rw [if_neg hne, splitLines_yamlMapLines, List.map_cons]
  simp only [hallf, Bool.false_eq_true, if_false]
  cases kvs with
  | nil =>
    simp [parseVFull_yamlMapLineOf k v, parseYamlMapLine_lineOf k v hv]
  | cons kv2 kvs3 =>
    have hmo : mapOption parseYamlMapLine
        (yamlMapLineOf (k, v) :: List.map yamlMapLineOf (kv2 :: kvs3))
        = some ((k, v) :: kv2 :: kvs3) := by
      rw [← List.map_cons]
      exact mapOption_parseYamlMapLine _ hok
    simp only [List.map_cons] at hmo
    simp only [List.map_cons, hmo]


/-- YAML round-trip on the common subset. -/
theorem yamlParse_ser (v : GValue) (h : commonOK v = true) :
    yamlParse (yaml_to_string v) = .ok v := by
  cases v with
  | null => exact absurd h (by simp [commonOK])
  | bool b => exact yamlParse_flowline _ h (by cases b <;> rfl)
  | int n => exact yamlParse_flowline _ h rfl
  | float m e => exact yamlParse_flowline _ h rfl
  | str s => exact yamlParse_flowline _ h rfl
  | seq xs =>
    cases xs with
    | nil => exact yamlParse_flowline _ h rfl
    | cons x xs2 => exact yamlParse_seqLines x xs2 h
  | map kvs =>
    cases kvs with
    | nil => exact yamlParse_flowline _ h rfl
    | cons kv kvs2 =>
      obtain ⟨k, v2⟩ := kv
      exact yamlParse_mapLines k v2 kvs2 h


/-- One serialize-then-parse hop returns the value unchanged on the common
subset. -/
theorem convertVia_id (f : Format) (v : GValue) (hok : commonOK v = true)
    (he : exprOK f v = true) : convertVia f v = some v := by
  cases f with
  | json => simp [convertVia, serializeDoc, parseDoc, jsonParse_ser v hok]
  | yaml => simp [convertVia, serializeDoc, parseDoc, yamlParse_ser v hok]
  | toml =>
    cases v with
    | null => cases he
    | bool b => cases he
    | int n => cases he
    | float m e => cases he
    | str s => cases he
    | seq xs => cases he
    | map kvs =>
      cases kvs with
      | nil => cases he
      | cons kv rest =>
        have hm := toml_ser_map (kv :: rest) hok
        have hp := tomlParse_tomlLines kv rest hok
        simp [convertVia, serializeDoc, parseDoc, hm, hp]


theorem to_json_value (d : InputData) (k : Bool) :
    d.to_json k = serde_json_to_writer k d.value := by
  cases d <;> rfl


theorem to_yaml_value (d : InputData) (k : Bool) :
    d.to_yaml k = serde_yaml_to_writer k d.value := by
  cases d <;> rfl


theorem to_toml_value (d : InputData) (k : Bool) :
    d.to_toml k = (match toml_to_string d.value with
      | .ok s => (Except.ok (), writeChars k s)
      | .error e => (Except.error e, [])) := by
  cases d <;> rfl


theorem serializeStage_json (d : InputData) (k : Bool) :
    serializeStage "json" d k
      = if k then (0, json_to_string d.value, [], [d.value])
        else (1, [], [.jsonErrorLine], [d.value]) := by
  cases k <;>
    simp [serializeStage, to_json_value, serde_json_to_writer]


theorem serializeStage_yaml (d : InputData) (k : Bool) :
    serializeStage "yaml" d k
      = if k then (0, yaml_to_string d.value, [], [d.value])
        else (1, [], [.yamlErrorLine], [d.value]) := by
  cases k <;>
    simp [serializeStage, to_yaml_value, serde_yaml_to_writer]


theorem serializeStage_toml (d : InputData) (k : Bool) :
    serializeStage "toml" d k
      = (match toml_to_string d.value with
        | .ok s => (0, writeChars k s, [], [d.value])
        | .error _ => (1, [], [.tomlErrorLine], [d.value])) := by
  rw [show serializeStage "toml" d k = (match d.to_toml k with
    | (.ok _, out) => (0, out, [], [d.value])
    | (.error _, out) => (1, out, [.tomlErrorLine], [d.value])) from rfl]
  rw [to_toml_value]
  cases htt : toml_to_string d.value <;> simp


theorem run_invalid (i o : String) (stdin : Chars) (env : IOEnv)
    (h : (validFormat i && validFormat o) = false) :
    run i o stdin env = ⟨1, [], [.clapError], false, [], []⟩ := by
  unfold run
  rw [h]
  rfl


theorem run_parse_fail (i o : String) (stdin : Chars) (env : IOEnv) (dg : Diag)
    (hv : (validFormat i && validFormat o) = true)
    (hp : parseStage (lowerStr i) env.stdinOk stdin = .fail dg) :
    run i o stdin env = ⟨1, [], [dg], true, [], []⟩ := by
  unfold run
  rw [hv, hp]
  rfl


theorem run_panicked (i o : String) (stdin : Chars) (env : IOEnv)
    (hv : (validFormat i && validFormat o) = true)
    (hp : parseStage (lowerStr i) env.stdinOk stdin = .panicked) :
    run i o stdin env = ⟨101, [], [.panicLine, .panicBacktraceNote], true, [], []⟩ := by
  unfold run
  rw [hv, hp]
  rfl


theorem run_parse_ok (i o : String) (stdin : Chars) (env : IOEnv) (d : InputData)
    (hv : (validFormat i && validFormat o) = true)
    (hp : parseStage (lowerStr i) env.stdinOk stdin = .ok d) :
    run i o stdin env
      = ⟨(serializeStage (lowerStr o) d env.stdoutOk).1,
         (serializeStage (lowerStr o) d env.stdoutOk).2.1,
         (serializeStage (lowerStr o) d env.stdoutOk).2.2.1,
         true, [d.value],
         (serializeStage (lowerStr o) d env.stdoutOk).2.2.2⟩ := by
  unfold run
  rw [hv, hp]
  rfl


theorem validFormat_cases (s : String) (h : validFormat s = true) :
    lowerStr s = "json" ∨ lowerStr s = "toml" ∨ lowerStr s = "yaml" := by
  unfold validFormat VALID_FORMATS at h
  have h2 : lowerStr s ∈ ["json", "toml", "yaml"] := List.elem_iff.mp h
  simp at h2
  rcases h2 with h2 | h2 | h2
  · exact Or.inl h2
  · exact Or.inr (Or.inl h2)
  · exact Or.inr (Or.inr h2)


/-- C1: for every Generic Value expressible in the common subset of the
three formats (booleans, numbers without NaN/Infinity, strings, sequences,
string-keyed maps; nulls optional, excluded here) and expressible as a
document of every format in the cycle, converting it through any cycle of
formats by parsing and re-serializing yields a value equal to the
original. -/
theorem C1_cycle_roundtrip (fs : List Format) (v : GValue)
    (hok : commonOK v = true) (hex : ∀ f ∈ fs, exprOK f v = true) :
    formatCycle fs v = some v := by
  induction fs with
  | nil => rfl
  | cons f fs2 ih =>
    have h1 : convertVia f v = some v :=
      convertVia_id f v hok (hex f (List.mem_cons_self f fs2))
    have h2 : formatCycle fs2 v = some v :=
      ih (fun g hg => hex g (List.mem_cons_of_mem f hg))
    unfold formatCycle
    rw [h1]
    exact h2


/-- Witness for C1: a concrete map through the full three-format cycle. -/
theorem C1_cycle_roundtrip_witness :
    formatCycle [Format.json, Format.toml, Format.yaml]
        (GValue.map [(['a'], GValue.int 1)])
      = some (GValue.map [(['a'], GValue.int 1)]) :=
  C1_cycle_roundtrip _ _ (by rfl) (by decide)


/-- C2: the format tag on `InputData` does not change how serialization
proceeds: when two parsed inputs (possibly from different input formats)
carry the same Generic Value, every serialization method and the whole
serialize stage (exit code, output bytes, diagnostics) agree regardless of
the tag. -/
theorem C2_tag_does_not_affect_serialization (d1 d2 : InputData)
    (hv : d1.value = d2.value) (fmt : String) (k : Bool) :
    d1.to_json k = d2.to_json k ∧ d1.to_toml k = d2.to_toml k ∧
    d1.to_yaml k = d2.to_yaml k ∧
    serializeStage fmt d1 k = serializeStage fmt d2 k := by
  refine ⟨?_, ?_, ?_, ?_⟩
  · rw [to_json_value, to_json_value, hv]
  · rw [to_toml_value, to_toml_value, hv]
  · rw [to_yaml_value, to_yaml_value, hv]
  · unfold serializeStage
    rw [to_json_value, to_json_value, to_toml_value, to_toml_value,
      to_yaml_value, to_yaml_value, hv]


/-- Witness for C2: the same value parsed from JSON and from YAML. -/
theorem C2_witness :
    (InputData.JSON (.int 1)).to_json true = (InputData.YAML (.int 1)).to_json true ∧
    (InputData.JSON (.int 1)).to_toml true = (InputData.YAML (.int 1)).to_toml true ∧
    (InputData.JSON (.int 1)).to_yaml true = (InputData.YAML (.int 1)).to_yaml true ∧
    serializeStage "json" (InputData.JSON (.int 1)) true
      = serializeStage "json" (InputData.YAML (.int 1)) true :=
  C2_tag_does_not_affect_serialization (.JSON (.int 1)) (.YAML (.int 1)) rfl "json" true


/-- C3: serializing a Generic Value whose root is not a map to TOML fails
with a SerializeError rather than crashing; in particular the run with
input format yaml, stdin `- 1\n- 2\n` and output format toml fails with the
TOML serialize-error diagnostic, exit code 1, and writes nothing to
stdout. -/
theorem C3_toml_nonmap_root :
    (∀ v : GValue, (∀ kvs, v ≠ GValue.map kvs) → toml_to_string v = .error .unsupported) ∧
    (run "yaml" "toml" dashOneTwo ⟨true, true⟩).exitCode = 1 ∧
    (run "yaml" "toml" dashOneTwo ⟨true, true⟩).stderr = [.tomlErrorLine] ∧
    (run "yaml" "toml" dashOneTwo ⟨true, true⟩).stdout = [] := by
  refine ⟨?_, rfl, rfl, rfl⟩
  intro v hv
  cases v with
  | map kvs => exact absurd rfl (hv kvs)
  | null => rfl
  | bool b => rfl
  | int n => rfl
  | float m e => rfl
  | str s => rfl
  | seq xs => rfl


/-- Witness for C3: the scenario's sequence root is rejected by the TOML
serializer. -/
theorem C3_witness :
    toml_to_string (GValue.seq [GValue.int 1, GValue.int 2]) = .error .unsupported :=
  C3_toml_nonmap_root.1 _ (fun _ h => GValue.noConfusion h)


/-- C4: for every valid input format, running with empty standard input
fails with the parse-error diagnostic and exit code 1, and no output
document is written to standard output.  (The external parsers are
modelled per the spec's contract: all three treat the empty document as a
ParseError.) -/
theorem C4_empty_input (i o : String) (hi : validFormat i = true)
    (ho : validFormat o = true) (w : Bool) :
    (run i o [] ⟨true, w⟩).exitCode = 1 ∧ (run i o [] ⟨true, w⟩).stdout = [] ∧
    (run i o [] ⟨true, w⟩).stderr = [Diag.parseErrorLine] := by
  have hv : (validFormat i && validFormat o) = true := by rw [hi, ho]; rfl
  have hp : parseStage (lowerStr i) true [] = .fail .parseErrorLine := by
    rcases validFormat_cases i hi with hc | hc | hc <;> rw [hc] <;> rfl
  have hr := run_parse_fail i o [] ⟨true, w⟩ .parseErrorLine hv hp
  rw [hr]
  exact ⟨rfl, rfl, rfl⟩


/-- Witness for C4 at input format json, output format toml. -/
theorem C4_empty_input_witness :
    (run "json" "toml" [] ⟨true, true⟩).exitCode = 1 ∧
    (run "json" "toml" [] ⟨true, true⟩).stdout = [] ∧
    (run "json" "toml" [] ⟨true, true⟩).stderr = [Diag.parseErrorLine] :=
  C4_empty_input "json" "toml" rfl rfl true


theorem parseStage_json_true (stdin : Chars) : parseStage "json" true stdin ≠ .panicked := by
  intro hps
  have h0 : parseStage "json" true stdin = (match jsonParse stdin with
    | .ok v => ParseOutcome.ok (.JSON v)
    | .error _ => .fail .parseErrorLine) := rfl
  rw [h0] at hps
  cases hj : jsonParse stdin <;> rw [hj] at hps <;> exact ParseOutcome.noConfusion hps


theorem parseStage_toml_true (stdin : Chars) : parseStage "toml" true stdin ≠ .panicked := by
  intro hps
  have h0 : parseStage "toml" true stdin = (match tomlParse stdin with
    | .ok v => ParseOutcome.ok (.TOML v)
    | .error _ => .fail .parseErrorLine) := rfl
  rw [h0] at hps
  cases hj : tomlParse stdin <;> rw [hj] at hps <;> exact ParseOutcome.noConfusion hps


theorem parseStage_yaml_true (stdin : Chars) : parseStage "yaml" true stdin ≠ .panicked := by
  intro hps
  have h0 : parseStage "yaml" true stdin = (match yamlParse stdin with
    | .ok v => ParseOutcome.ok (.YAML v)
    | .error _ => .fail .parseErrorLine) := rfl
  rw [h0] at hps
  cases hj : yamlParse stdin <;> rw [hj] at hps <;> exact ParseOutcome.noConfusion hps


/-- C5 counterexample: with input format toml and a failing stdin read the
process panics and exits with code 101 — a failure whose exit code is
neither 1 (as the claim states for every failure) nor 0. -/
theorem C5_counterexample :
    (run "toml" "json" [] ⟨false, true⟩).exitCode = 101 ∧
    ¬((run "toml" "json" [] ⟨false, true⟩).exitCode = 1) ∧
    ¬((run "toml" "json" [] ⟨false, true⟩).exitCode = 0) :=
  ⟨rfl, by decide, by decide⟩


/-- C5 (amended): the exit code is 0 exactly when argument validation,
parsing, and the serialize stage all succeed; every other failure exits 1,
except an I/O failure reading stdin with TOML input, which panics and
exits 101. -/
theorem C5_exit_codes (i o : String) (stdin : Chars) (env : IOEnv) :
    ((run i o stdin env).exitCode = 0 ∨ (run i o stdin env).exitCode = 1
      ∨ (run i o stdin env).exitCode = 101) ∧
    ((run i o stdin env).exitCode = 101 ↔
      validFormat i = true ∧ validFormat o = true ∧ lowerStr i = "toml"
        ∧ env.stdinOk = false) ∧
    ((run i o stdin env).exitCode = 0 ↔
      ∃ d : InputData,
        validFormat i = true ∧ validFormat o = true
          ∧ parseStage (lowerStr i) env.stdinOk stdin = ParseOutcome.ok d
          ∧ (serializeStage (lowerStr o) d env.stdoutOk).1 = 0) := by
  obtain ⟨si, so⟩ := env
  by_cases hv : (validFormat i && validFormat o) = true
  · have hv2 := hv
    rw [Bool.and_eq_true] at hv2
    obtain ⟨hi, ho⟩ := hv2
    cases si with
    | false =>
      rcases validFormat_cases i hi with hc | hc | hc
      · have hp : parseStage (lowerStr i) false stdin = .fail .parseErrorLine := by
          rw [hc]; rfl
        have hr := run_parse_fail i o stdin ⟨false, so⟩ .parseErrorLine hv hp
        rw [hr]
        refine ⟨Or.inr (Or.inl rfl), ?_, ?_⟩
        · constructor
          · intro h; exact absurd h (by decide)
          · rintro ⟨_, _, hT, _⟩
            rw [hc] at hT
            exact absurd hT (by decide)
        · constructor
          · intro h; exact absurd h (by decide)
          · rintro ⟨d, _, _, hd, _⟩
            rw [hp] at hd
            exact ParseOutcome.noConfusion hd
      · have hp : parseStage (lowerStr i) false stdin = .panicked := by
          rw [hc]; rfl
        have hr := run_panicked i o stdin ⟨false, so⟩ hv hp
        rw [hr]
        refine ⟨Or.inr (Or.inr rfl), ?_, ?_⟩
        · exact ⟨fun _ => ⟨hi, ho, hc, rfl⟩, fun _ => rfl⟩
        · constructor
          · intro h; exact absurd h (by decide)
          · rintro ⟨d, _, _, hd, _⟩
            rw [hp] at hd
            exact ParseOutcome.noConfusion hd
      · have hp : parseStage (lowerStr i) false stdin = .fail .parseErrorLine := by
          rw [hc]; rfl
        have hr := run_parse_fail i o stdin ⟨false, so⟩ .parseErrorLine hv hp
        rw [hr]
        refine ⟨Or.inr (Or.inl rfl), ?_, ?_⟩
        · constructor
          · intro h; exact absurd h (by decide)
          · rintro ⟨_, _, hT, _⟩
            rw [hc] at hT
            exact absurd hT (by decide)
        · constructor
          · intro h; exact absurd h (by decide)
          · rintro ⟨d, _, _, hd, _⟩
            rw [hp] at hd
            exact ParseOutcome.noConfusion hd
    | true =>
      cases hps : parseStage (lowerStr i) true stdin with
      | ok d =>
        have hr := run_parse_ok i o stdin ⟨true, so⟩ d hv hps
        rw [hr]
        have hcode : (serializeStage (lowerStr o) d so).1 = 0
            ∨ (serializeStage (lowerStr o) d so).1 = 1 := by
          rcases validFormat_cases o ho with hoc | hoc | hoc <;> rw [hoc]
          · rw [serializeStage_json]; cases so <;> simp
          · rw [serializeStage_toml]
            cases htt : toml_to_string d.value <;> simp
          · rw [serializeStage_yaml]; cases so <;> simp
        refine ⟨?_, ?_, ?_⟩
        · rcases hcode with h | h
          · exact Or.inl h
          · exact Or.inr (Or.inl h)
        · constructor
          · intro h
            simp only [] at h
            rcases hcode with h2 | h2 <;> omega
          · rintro ⟨_, _, _, hsi⟩
            simp at hsi
        · constructor
          · intro h
            exact ⟨d, hi, ho, rfl, h⟩
          · rintro ⟨d2, _, _, hd2, hc2⟩
            injection hd2 with hd3
            rw [hd3]
            exact hc2
      | fail dg =>
        have hr := run_parse_fail i o stdin ⟨true, so⟩ dg hv hps
        rw [hr]
        refine ⟨Or.inr (Or.inl rfl), ?_, ?_⟩
        · constructor
          · intro h; simp at h
          · rintro ⟨_, _, _, hsi⟩
            simp at hsi
        · constructor
          · intro h; simp at h
          · rintro ⟨d2, _, _, hd2, _⟩
            exact ParseOutcome.noConfusion hd2
      | panicked =>
        exfalso
        rcases validFormat_cases i hi with hc | hc | hc <;> rw [hc] at hps
        · exact parseStage_json_true stdin hps
        · exact parseStage_toml_true stdin hps
        · exact parseStage_yaml_true stdin hps
  · have hvf : (validFormat i && validFormat o) = false := by
      cases hb : (validFormat i && validFormat o)
      · rfl
      · exact absurd hb hv
    have hr := run_invalid i o stdin ⟨si, so⟩ hvf
    rw [hr]
    refine ⟨Or.inr (Or.inl rfl), ?_, ?_⟩
    · constructor
      · intro h; exact absurd h (by decide)
      · rintro ⟨h1, h2, _, _⟩
        exact absurd (show (validFormat i && validFormat o) = true by rw [h1, h2]; rfl) hv
    · constructor
      · intro h; exact absurd h (by decide)
      · rintro ⟨d, h1, h2, _, _⟩
        exact absurd (show (validFormat i && validFormat o) = true by rw [h1, h2]; rfl) hv


/-- C6: in the TOML output path the success or failure of the final write
to stdout is discarded: when TOML serialization of the parsed Generic
Value succeeds, `to_toml` returns `Ok` and the process exits 0 even when
every stdout write fails (so nothing at all reaches stdout). -/
theorem C6_toml_write_discarded (i o : String) (stdin : Chars) (d : InputData) (s : Chars)
    (hi : validFormat i = true) (ho : lowerStr o = "toml")
    (hp : parseStage (lowerStr i) true stdin = .ok d)
    (hs : toml_to_string d.value = .ok s) :
    d.to_toml false = (Except.ok (), []) ∧
    (run i o stdin ⟨true, false⟩).exitCode = 0 ∧
    (run i o stdin ⟨true, false⟩).stdout = [] := by
  have hvo : validFormat o = true := by
    unfold validFormat
    rw [ho]
    rfl
  have hv : (validFormat i && validFormat o) = true := by rw [hi, hvo]; rfl
  have ht : d.to_toml false = (Except.ok (), []) := by
    rw [to_toml_value, hs]
    rfl
  have hss : serializeStage (lowerStr o) d false = (0, [], [], [d.value]) := by
    rw [ho, serializeStage_toml, hs]
    rfl
  have hr := run_parse_ok i o stdin ⟨true, false⟩ d hv hp
  refine ⟨ht, ?_, ?_⟩ <;> rw [hr] <;> simp [hss]


/-- Witness for C6: a TOML-to-TOML run of `"a" = 1` with failing stdout. -/
theorem C6_witness :
    (InputData.TOML (.map [(['a'], GValue.int 1)])).to_toml false = (Except.ok (), []) ∧
    (run "toml" "toml" ('"' :: 'a' :: '"' :: ' ' :: '=' :: ' ' :: '1' :: '\n' :: [])
      ⟨true, false⟩).exitCode = 0 ∧
    (run "toml" "toml" ('"' :: 'a' :: '"' :: ' ' :: '=' :: ' ' :: '1' :: '\n' :: [])
      ⟨true, false⟩).stdout = [] :=
  C6_toml_write_discarded "toml" "toml" _ (InputData.TOML (.map [(['a'], GValue.int 1)]))
    (tomlLines [(['a'], GValue.int 1)]) rfl rfl rfl rfl


/-- C7: for every format identifier outside the allow-list on either side,
the program fails with exit code 1 (nonzero) before any read from standard
input occurs, and writes nothing to stdout. -/
theorem C7_bad_format_rejected_before_read (i o : String) (stdin : Chars) (env : IOEnv)
    (h : validFormat i = false ∨ validFormat o = false) :
    (run i o stdin env).exitCode ≠ 0 ∧ (run i o stdin env).exitCode = 1 ∧
    (run i o stdin env).stdinRead = false ∧ (run i o stdin env).stdout = [] := by
  have hvf : (validFormat i && validFormat o) = false := by
    rcases h with h | h <;> rw [h] <;> simp
  rw [run_invalid i o stdin env hvf]
  exact ⟨by decide, rfl, rfl, rfl⟩


/-- Witness for C7: `--input xml`. -/
theorem C7_witness :
    (run "xml" "json" [] ⟨true, true⟩).exitCode ≠ 0 ∧
    (run "xml" "json" [] ⟨true, true⟩).exitCode = 1 ∧
    (run "xml" "json" [] ⟨true, true⟩).stdinRead = false ∧
    (run "xml" "json" [] ⟨true, true⟩).stdout = [] :=
  C7_bad_format_rejected_before_read "xml" "json" [] ⟨true, true⟩ (Or.inl rfl)


theorem parseStage_fail_diag (fmt : String)
    (hf : fmt = "json" ∨ fmt = "toml" ∨ fmt = "yaml") (k : Bool) (stdin : Chars) (dg : Diag)
    (h : parseStage fmt k stdin = .fail dg) : dg = Diag.parseErrorLine := by
  rcases hf with rfl | rfl | rfl <;> cases k
  · have h2 : ParseOutcome.fail Diag.parseErrorLine = ParseOutcome.fail dg := h
    injection h2 with h3
    exact h3.symm
  · have h0 : parseStage "json" true stdin = (match jsonParse stdin with
      | .ok v => ParseOutcome.ok (.JSON v)
      | .error _ => .fail .parseErrorLine) := rfl
    rw [h0] at h
    cases hj : jsonParse stdin <;> rw [hj] at h
    · injection h with h3
      exact h3.symm
    · exact ParseOutcome.noConfusion h
  · exact ParseOutcome.noConfusion (show ParseOutcome.panicked = ParseOutcome.fail dg from h)
  · have h0 : parseStage "toml" true stdin = (match tomlParse stdin with
      | .ok v => ParseOutcome.ok (.TOML v)
      | .error _ => .fail .parseErrorLine) := rfl
    rw [h0] at h
    cases hj : tomlParse stdin <;> rw [hj] at h
    · injection h with h3
      exact h3.symm
    · exact ParseOutcome.noConfusion h
  · have h2 : ParseOutcome.fail Diag.parseErrorLine = ParseOutcome.fail dg := h
    injection h2 with h3
    exact h3.symm
  · have h0 : parseStage "yaml" true stdin = (match yamlParse stdin with
      | .ok v => ParseOutcome.ok (.YAML v)
      | .error _ => .fail .parseErrorLine) := rfl
    rw [h0] at h
    cases hj : yamlParse stdin <;> rw [hj] at h
    · injection h with h3
      exact h3.symm
    · exact ParseOutcome.noConfusion h


theorem serializeStage_diag (o : String) (d : InputData) (so : Bool)
    (ho : validFormat o = true) :
    ((serializeStage (lowerStr o) d so).1 = 0 ∧ (serializeStage (lowerStr o) d so).2.2.1 = [])
    ∨ ((serializeStage (lowerStr o) d so).1 = 1
        ∧ ∃ dg, (serializeStage (lowerStr o) d so).2.2.1 = [dg] ∧ dg.stagePrefixed = true) := by
  rcases validFormat_cases o ho with hoc | hoc | hoc <;> rw [hoc]
  · rw [serializeStage_json]
    cases so
    · simp
      rfl
    · simp
  · rw [serializeStage_toml]
    cases htt : toml_to_string d.value
    · simp
      rfl
    · simp
  · rw [serializeStage_yaml]
    cases so
    · simp
      rfl
    · simp


theorem serializeStage_serialized (o : String) (d : InputData) (so : Bool)
    (ho : validFormat o = true) :
    (serializeStage (lowerStr o) d so).2.2.2 = [d.value] := by
  rcases validFormat_cases o ho with hoc | hoc | hoc <;> rw [hoc]
  · rw [serializeStage_json]; cases so <;> simp
  · rw [serializeStage_toml]; cases htt : toml_to_string d.value <;> simp
  · rw [serializeStage_yaml]; cases so <;> simp


/-- C8 counterexample: the TOML-input run with a failing stdin read is a
failing run whose error stream carries the runtime's two-line panic
report — not exactly one stage-prefixed diagnostic line. -/
theorem C8_counterexample :
    ¬((run "toml" "json" [] ⟨false, true⟩).exitCode = 0) ∧
    (run "toml" "json" [] ⟨false, true⟩).stderr = [Diag.panicLine, Diag.panicBacktraceNote] ∧
    ¬((run "toml" "json" [] ⟨false, true⟩).stderr.length = 1) ∧
    Diag.stagePrefixed Diag.panicLine = false :=
  ⟨by decide, rfl, by decide, rfl⟩


/-- C8 (amended): a fully successful run prints nothing on the error
stream; every failing run prints exactly one stage-prefixed diagnostic
line — except the stdin-read failure on the TOML input path, which panics
and prints the runtime's two-line panic report. -/
theorem C8_diagnostics (i o : String) (stdin : Chars) (env : IOEnv) :
    ((run i o stdin env).exitCode = 0 → (run i o stdin env).stderr = []) ∧
    ((run i o stdin env).exitCode ≠ 0 →
      ((run i o stdin env).stderr.length = 1
          ∧ ∀ dg ∈ (run i o stdin env).stderr, dg.stagePrefixed = true)
        ∨ ((run i o stdin env).stderr = [Diag.panicLine, Diag.panicBacktraceNote]
          ∧ lowerStr i = "toml" ∧ env.stdinOk = false)) := by
  by_cases hv : (validFormat i && validFormat o) = true
  · have hv2 := hv
    rw [Bool.and_eq_true] at hv2
    obtain ⟨hi, ho⟩ := hv2
    cases hps : parseStage (lowerStr i) env.stdinOk stdin with
    | ok d =>
      rw [run_parse_ok i o stdin env d hv hps]
      rcases serializeStage_diag o d env.stdoutOk ho with ⟨hc0, he0⟩ | ⟨hc1, dg, hdg, hpref⟩
      · constructor
        · intro _
          exact he0
        · intro hne
          exact absurd hc0 hne
      · constructor
        · intro h
          simp only [] at h
          omega
        · intro _
          left
          rw [hdg]
          refine ⟨rfl, ?_⟩
          intro dg2 hdg2
          rw [List.mem_singleton] at hdg2
          rw [hdg2]
          exact hpref
    | fail dg =>
      rw [run_parse_fail i o stdin env dg hv hps]
      have hdg : dg = Diag.parseErrorLine :=
        parseStage_fail_diag (lowerStr i) (validFormat_cases i hi) env.stdinOk stdin dg hps
      constructor
      · intro h
        simp at h
      · intro _
        left
        rw [hdg]
        refine ⟨rfl, ?_⟩
        intro dg2 hdg2
        rw [List.mem_singleton] at hdg2
        rw [hdg2]
        rfl
    | panicked =>
      rw [run_panicked i o stdin env hv hps]
      have hpan : lowerStr i = "toml" ∧ env.stdinOk = false := by
        rcases validFormat_cases i hi with hc | hc | hc <;> rw [hc] at hps <;>
          cases hsi : env.stdinOk <;> rw [hsi] at hps
        · exact ParseOutcome.noConfusion hps
        · exact absurd hps (parseStage_json_true stdin)
        · exact ⟨hc, rfl⟩
        · exact absurd hps (parseStage_toml_true stdin)
        · exact ParseOutcome.noConfusion hps
        · exact absurd hps (parseStage_yaml_true stdin)
      constructor
      · intro h
        simp at h
      · intro _
        right
        exact ⟨rfl, hpan.1, hpan.2⟩
  · have hvf : (validFormat i && validFormat o) = false := by
      cases hb : (validFormat i && validFormat o)
      · rfl
      · exact absurd hb hv
    rw [run_invalid i o stdin env hvf]
    constructor
    · intro h
      simp at h
    · intro _
      left
      refine ⟨rfl, ?_⟩
      intro dg2 hdg2
      rw [List.mem_singleton] at hdg2
      rw [hdg2]
      rfl


/-- C9: the Generic Value is never mutated after construction: the run
constructs at most one value, and the list of values handed to a
serializer is exactly the list of constructed values — the parsed value
reaches the serializer unchanged and is serialized at most once. -/
theorem C9_single_value_lifecycle (i o : String) (stdin : Chars) (env : IOEnv) :
    (run i o stdin env).constructed = (run i o stdin env).serialized ∧
    (run i o stdin env).constructed.length ≤ 1 := by
  by_cases hv : (validFormat i && validFormat o) = true
  · have hv2 := hv
    rw [Bool.and_eq_true] at hv2
    obtain ⟨hi, ho⟩ := hv2
    cases hps : parseStage (lowerStr i) env.stdinOk stdin with
    | ok d =>
      rw [run_parse_ok i o stdin env d hv hps]
      refine ⟨?_, by simp⟩
      show [d.value] = (serializeStage (lowerStr o) d env.stdoutOk).2.2.2
      rw [serializeStage_serialized o d env.stdoutOk ho]
    | fail dg =>
      rw [run_parse_fail i o stdin env dg hv hps]
      exact ⟨rfl, by simp⟩
    | panicked =>
      rw [run_panicked i o stdin env hv hps]
      exact ⟨rfl, by simp⟩
  · have hvf : (validFormat i && validFormat o) = false := by
      cases hb : (validFormat i && validFormat o)
      · rfl
      · exact absurd hb hv
    rw [run_invalid i o stdin env hvf]
    exact ⟨rfl, by simp⟩


/-- C10: the conversion is deterministic: two runs with the same resolved
formats, the same stdin bytes and the same I/O environment produce
identical stdout bytes, identical diagnostics and the same exit code. -/
theorem C10_deterministic (i o : String) (stdin : Chars) (env : IOEnv) (r1 r2 : RunResult)
    (h1 : r1 = run i o stdin env) (h2 : r2 = run i o stdin env) :
    r1.stdout = r2.stdout ∧ r1.stderr = r2.stderr ∧ r1.exitCode = r2.exitCode := by
  subst h1
  subst h2
  exact ⟨rfl, rfl, rfl⟩


/-- Witness for C10 at a concrete run. -/
theorem C10_witness :
    (run "json" "yaml" ['1'] ⟨true, true⟩).stdout = (run "json" "yaml" ['1'] ⟨true, true⟩).stdout ∧
    (run "json" "yaml" ['1'] ⟨true, true⟩).stderr = (run "json" "yaml" ['1'] ⟨true, true⟩).stderr ∧
    (run "json" "yaml" ['1'] ⟨true, true⟩).exitCode = (run "json" "yaml" ['1'] ⟨true, true⟩).exitCode :=
  C10_deterministic "json" "yaml" ['1'] ⟨true, true⟩ _ _ rfl rfl
